import Mathlib

/-!
Verification of the `autd3-server` build orchestration script (`build.py`).

The script is straight-line imperative Python.  We embed it shallowly:

* Text files are lists of lines (`List Char` per line, newline-free); the
  `re.sub(..., flags=re.MULTILINE)` substitutions of `util upver` only use
  patterns that cannot cross a newline (`.` does not match `\n`), so each
  substitution factors through the lines of the file and is embedded as a
  per-line transformer.
* Each action (`build`, `lint`, `clear`, `util upver`) is a fixed list of
  steps (external commands and file operations) run by a small interpreter
  that models `subprocess.run(...).check_returncode()`: a non-zero exit
  status raises, which terminates the remaining Python statements.
* Platform / environment / filesystem probes (`Config`) are pure functions
  of an abstract host.
-/

set_option autoImplicit false

namespace AUTD3Server

/-! ### The `util upver` substitutions (build.py lines 256-336)

Each Python `re.sub(pattern, repl, content, flags=re.MULTILINE)` is embedded
as a per-line transformer; `v` is the list of characters of the `version`
command-line argument.  The embedding inserts `v` literally, which matches
`re.sub` whenever `v` contains no backslash (backslashes in a replacement
string are escape-processed by `re.sub`). -/

/-- One line of a text file.  Lines never contain a newline character. -/
abbrev Line := List Char

/-- `stripPre p l = some r` iff `l = p ++ r` (matching a literal at the start). -/
def stripPre : Line → Line → Option Line
  | [], l => some l
  | _ :: _, [] => none
  | p :: ps, c :: cs => if p = c then stripPre ps cs else none

/-- Split at the first occurrence of `ch`: the non-greedy `(.*?)ch`. -/
def breakAtChar (ch : Char) : Line → Option (Line × Line)
  | [] => none
  | c :: cs =>
    if c = ch then some ([], cs)
    else
      match breakAtChar ch cs with
      | some (a, b) => some (c :: a, b)
      | none => none

/-- Split at the first occurrence of the literal `lit`: an unanchored leftmost match. -/
def splitFirstLit (lit : Line) : Line → Option (Line × Line)
  | [] =>
    match stripPre lit [] with
    | some r => some ([], r)
    | none => none
  | c :: cs =>
    match stripPre lit (c :: cs) with
    | some r => some ([], r)
    | none =>
      match splitFirstLit lit cs with
      | some (pre, r) => some (c :: pre, r)
      | none => none

/-- Split at the last occurrence of the literal `lit`: the greedy `(.*)lit`. -/
def splitLastLit (lit : Line) : Line → Option (Line × Line)
  | [] =>
    match stripPre lit [] with
    | some r => some ([], r)
    | none => none
  | c :: cs =>
    match splitLastLit lit cs with
    | some (g, t) => some (c :: g, t)
    | none =>
      match stripPre lit (c :: cs) with
      | some r => some ([], r)
      | none => none

/-- Greedy-then-non-greedy tail of `^autd3(.*)version = "(.*?)"`:
the last occurrence of `lit` whose remainder still contains a `"`, with the
remainder split at its first `"`. -/
def splitLastLitThenQuote (lit : Line) : Line → Option (Line × Line × Line)
  | [] => none
  | c :: cs =>
    match splitLastLitThenQuote lit cs with
    | some (g, a, t) => some (c :: g, a, t)
    | none =>
      match stripPre lit (c :: cs) with
      | some r =>
        match breakAtChar '"' r with
        | some (a, t) => some ([], a, t)
        | none => none
      | none => none

/-- Tail matcher for ` (.*) \((.*)\)` after the greedy first group: the last
`" ("` whose remainder still contains a `)`, with the remainder split at its
last `)`. -/
def splitG2 : Line → Option (Line × Line × Line)
  | [] => none
  | c :: cs =>
    match splitG2 cs with
    | some (g2, g3, t) => some (c :: g2, g3, t)
    | none =>
      if c = ' ' then
        match cs with
        | '(' :: u =>
          match splitLastLit [')'] u with
          | some (g3, t) => some ([], g3, t)
          | none => none
        | _ => none
      else none

/-- Matcher for `^autd3(.*) (.*) \((.*)\)` after the `autd3` literal:
greedy first group, split at the last space whose remainder matches
`(.*) \((.*)\)`. -/
def splitG1 : Line → Option (Line × Line × Line × Line)
  | [] => none
  | c :: cs =>
    match splitG1 cs with
    | some (g1, g2, g3, t) => some (c :: g1, g2, g3, t)
    | none =>
      if c = ' ' then
        match splitG2 cs with
        | some (g2, g3, t) => some ([], g2, g3, t)
        | none => none
      else none

def litVersionEq : Line := "version = \"".toList

def litAutd3 : Line := "autd3".toList

def litSoemLink : Line := "autd3-link-soem ".toList

def litTwincatLink : Line := "autd3-link-twincat ".toList

def litSOEMServer : Line := "SOEMAUTDServer ".toList

def litSimulatorSp : Line := "simulator ".toList

def litMIT : Line := " (MIT)".toList

def litVersionJson : Line := "\"version\": \"".toList

def litTitleTauri : Line := "\"title\": \"AUTD3 Server v".toList

/-- `re.sub(r'^version = "(.*?)"', f'version = "{version}"', ...)` on one line. -/
def cargoSub1 (v line : Line) : Line :=
  match stripPre litVersionEq line with
  | none => line
  | some r =>
    match breakAtChar '"' r with
    | none => line
    | some (_, tail) => litVersionEq ++ v ++ '"' :: tail

/-- `re.sub(r'^autd3(.*)version = "(.*?)"', f'autd3\1version = "{version}"', ...)`
on one line. -/
def cargoSub2 (v line : Line) : Line :=
  match stripPre litAutd3 line with
  | none => line
  | some r =>
    match splitLastLitThenQuote litVersionEq r with
    | none => line
    | some (g1, _, tail) => litAutd3 ++ g1 ++ litVersionEq ++ v ++ '"' :: tail

/-- Both substitutions applied to one line of a `Cargo.toml`, in source order. -/
def cargoLine (v line : Line) : Line := cargoSub2 v (cargoSub1 v line)

/-- The `Cargo.toml` rewrite of `util_update_ver`. -/
def cargoToml (v : Line) (content : List Line) : List Line := content.map (cargoLine v)

/-- `re.sub(r'^autd3(.*) (.*) \((.*)\)', f'autd3\1 {version} (MIT)', ...)` on one line. -/
def noticeSub1 (v line : Line) : Line :=
  match stripPre litAutd3 line with
  | none => line
  | some r =>
    match splitG1 r with
    | none => line
    | some (g1, _, _, tail) => litAutd3 ++ g1 ++ ' ' :: (v ++ litMIT ++ tail)

/-- `re.sub(r'^autd3-link-soem (.*)', f'autd3-link-soem {version}', ...)` on one line. -/
def noticeSub2 (v line : Line) : Line :=
  match stripPre litSoemLink line with
  | none => line
  | some _ => litSoemLink ++ v

/-- `re.sub(r'^autd3-link-twincat (.*)', f'autd3-link-twincat {version}', ...)` on one line. -/
def noticeSub3 (v line : Line) : Line :=
  match stripPre litTwincatLink line with
  | none => line
  | some _ => litTwincatLink ++ v

/-- `re.sub(r'^SOEMAUTDServer (.*) \(MIT\)', f'SOEMAUTDServer {version} (MIT)', ...)`
on one line. -/
def noticeSub4 (v line : Line) : Line :=
  match stripPre litSOEMServer line with
  | none => line
  | some r =>
    match splitLastLit litMIT r with
    | none => line
    | some (_, tail) => litSOEMServer ++ v ++ litMIT ++ tail

/-- `re.sub(r'^simulator (.*) \(MIT\)', f'simulator {version} (MIT)', ...)` on one line. -/
def noticeSub5 (v line : Line) : Line :=
  match stripPre litSimulatorSp line with
  | none => line
  | some r =>
    match splitLastLit litMIT r with
    | none => line
    | some (_, tail) => litSimulatorSp ++ v ++ litMIT ++ tail

/-- The five notice substitutions applied to one line, in source order. -/
def noticeLine (v line : Line) : Line :=
  noticeSub5 v (noticeSub4 v (noticeSub3 v (noticeSub2 v (noticeSub1 v line))))

/-- The `ThirdPartyNotice.txt` rewrite of `util_update_ver`. -/
def noticeTxt (v : Line) (content : List Line) : List Line := content.map (noticeLine v)

/-- `re.sub(r'"version": "(.*)"', f'"version": "{version}"', ...)` on one line.
The pattern is unanchored but cannot cross a newline; scanning matches at the
first occurrence of `"version": "` and the greedy group extends to the last
`"` of the line, after which no further match can start (the remainder is
quote-free while the pattern needs quotes). -/
def jsonVersionSub (v line : Line) : Line :=
  match splitFirstLit litVersionJson line with
  | none => line
  | some (pre, r) =>
    match splitLastLit ['"'] r with
    | none => line
    | some (_, tail) => pre ++ litVersionJson ++ v ++ '"' :: tail

/-- The `package.json` rewrite of `util_update_ver`. -/
def packageJson (v : Line) (content : List Line) : List Line :=
  content.map (jsonVersionSub v)

/-- `re.sub(r'"title": "AUTD3 Server v(.*)"', f'"title": "AUTD3 Server v{version}"', ...)`
on one line. -/
def tauriTitleSub (v line : Line) : Line :=
  match splitFirstLit litTitleTauri line with
  | none => line
  | some (pre, r) =>
    match splitLastLit ['"'] r with
    | none => line
    | some (_, tail) => pre ++ litTitleTauri ++ v ++ '"' :: tail

/-- Both `tauri.conf.json` substitutions applied to one line, in source order. -/
def tauriLine (v line : Line) : Line := tauriTitleSub v (jsonVersionSub v line)

/-- The `src-tauri/tauri.conf.json` rewrite of `util_update_ver`. -/
def tauriConf (v : Line) (content : List Line) : List Line := content.map (tauriLine v)

/-- A path in the repository tree, as its `/`-separated components. -/
abbrev RPath := List String

/-- A repository snapshot: each file's path with its content as lines. -/
abbrev FileTree := List (RPath × List Line)

/-- Does the path match the glob `./**/*/Cargo.toml`?  The pattern has an
explicit `*/` component, so the file must sit inside at least one directory. -/
def isCargoTomlPath (p : RPath) : Bool :=
  decide (2 ≤ p.length) && (p.getLast? == some "Cargo.toml")

/-- Does the path match the glob `./**/*/ThirdPartyNotice.txt`? -/
def isNoticePath (p : RPath) : Bool :=
  decide (2 ≤ p.length) && (p.getLast? == some "ThirdPartyNotice.txt")

def pkgJsonPath : RPath := ["package.json"]

def tauriConfPath : RPath := ["src-tauri", "tauri.conf.json"]

/-- Rewrite one file of the tree in place (`open(p, "r")` … `open(p, "w")`). -/
def editTree (path : RPath) (f : List Line → List Line) (fs : FileTree) : FileTree :=
  fs.map fun e => if e.1 = path then (e.1, f e.2) else e

/-- The text-substitution phase of `util_update_ver` (build.py lines 256-336,
before the `cargo update` / `npm i` invocations): every glob-matched
`Cargo.toml` and `ThirdPartyNotice.txt` is rewritten in place, then
`package.json` and `src-tauri/tauri.conf.json`. -/
def upverPhase (v : Line) (fs : FileTree) : FileTree :=
  let fs1 := fs.map fun e => if isCargoTomlPath e.1 then (e.1, cargoToml v e.2) else e
  let fs2 := fs1.map fun e => if isNoticePath e.1 then (e.1, noticeTxt v e.2) else e
  let fs3 := editTree pkgJsonPath (packageJson v) fs2
  editTree tauriConfPath (tauriConf v) fs3

/-- Does a line match `^version = "(.*?)"` — it begins with `version = "` and a
closing quote follows? -/
def matchesCargo1 (line : Line) : Bool :=
  match stripPre litVersionEq line with
  | some r => (breakAtChar '"' r).isSome
  | none => false

/-- Does a line match `^autd3(.*)version = "(.*?)"`? -/
def matchesCargo2 (line : Line) : Bool :=
  match stripPre litAutd3 line with
  | some r => (splitLastLitThenQuote litVersionEq r).isSome
  | none => false

/-- The value inside the first quoted string of a line of the form
`version = "..."`. -/
def quotedValue (line : Line) : Option Line :=
  match stripPre litVersionEq line with
  | some r => (breakAtChar '"' r).map Prod.fst
  | none => none

/-- The version strings for which the embedding of the replacement templates
is exact and the substitutions are well-behaved: no quote, no space, no
backslash, no newline.  Real release versions (`x.y.z`, possibly with a
`-rc.n` tag) all satisfy this. -/
def plainVersion (v : Line) : Prop :=
  '"' ∉ v ∧ ' ' ∉ v ∧ '\\' ∉ v ∧ '\n' ∉ v

instance (v : Line) : Decidable (plainVersion v) := by
  unfold plainVersion
  infer_instance

/-- The top-level actions named by the specification's dispatcher list.  The
constructor `checkLicense` exists so the specification's claim about a
`check-license` action can be stated against the parser. -/
inductive TopAction
  | build (simulator soem twincat main : Bool)
  | lint (simulator soem twincat main : Bool)
  | clear
  | utilUpver (version : String)
  | helpCmd (command : String)
  | checkLicense
deriving DecidableEq

def buildFlagNames : List String := ["--simulator", "--soem", "--twincat", "--main"]

/-- `argparse` acceptance of the four optional `store_true` flags: every
remaining token must be one of them, and a flag is set iff it occurs. -/
def parseFlags (rest : List String) : Option (Bool × Bool × Bool × Bool) :=
  if rest.all (fun a => buildFlagNames.contains a) then
    some (rest.contains "--simulator", rest.contains "--soem",
          rest.contains "--twincat", rest.contains "--main")
  else none

/-- The command-line dispatcher (build.py lines 360-421).  The subparsers are
`build`, `lint`, `clear`, `util` (with sub-subparser `upver`), and `help`;
`none` models both an argparse error exit and the no-handler path that merely
prints help. -/
def parseArgs : List String → Option TopAction
  | "build" :: rest =>
    (parseFlags rest).map fun f => TopAction.build f.1 f.2.1 f.2.2.1 f.2.2.2
  | "lint" :: rest =>
    (parseFlags rest).map fun f => TopAction.lint f.1 f.2.1 f.2.2.1 f.2.2.2
  | ["clear"] => some TopAction.clear
  | ["util", "upver", version] => some (TopAction.utilUpver version)
  | ["help", command] => some (TopAction.helpCmd command)
  | _ => none

/-- The observable host state probed by `Config` (build.py lines 83-131):
`platform.system()`, `os.environ`, `os.path.isfile`, `shutil.which`. -/
structure Host where
  platform : String
  env : String → Option String
  isFile : String → Bool
  which : String → Option String

/-- `env_exists` (build.py lines 79-80). -/
def envExists (h : Host) (key : String) : Bool :=
  match h.env key with
  | some value => decide (value ≠ "")
  | none => false

def hostIsWindows (h : Host) : Bool := h.platform == "Windows"

/-- Truthiness of a `shutil.which` result in Python: `None` and `""` are falsy. -/
def whichTruthy (r : Option String) : Bool :=
  match r with
  | none => false
  | some s => decide (s ≠ "")

/-- `Config.is_shaderc_available` (build.py lines 111-131). -/
def isShadercAvailable (h : Host) : Bool :=
  let shadercLibName :=
    if hostIsWindows h then "shaderc_combined.lib" else "libshaderc_combined.a"
  if envExists h "SHADERC_LIB_DIR" &&
      h.isFile ((h.env "SHADERC_LIB_DIR").getD "" ++ "/" ++ shadercLibName) then true
  else if envExists h "VULKAN_SDK" &&
      h.isFile ((h.env "VULKAN_SDK").getD "" ++ "/lib/" ++ shadercLibName) then true
  else if !hostIsWindows h && h.isFile ("/usr/local/lib/" ++ shadercLibName) then true
  else if (h.which "git").isSome && (h.which "cmake").isSome &&
      (h.which "python3").isSome && whichTruthy (h.which "ninja") then true
  else false

def supportedPlatform (p : String) : Bool := p == "Windows" || p == "Darwin" || p == "Linux"

/-- The computed configuration flags. -/
structure Config where
  platform : String
  shaderc : Bool
deriving DecidableEq

/-- `Config.__init__` (build.py lines 87-97): `none` models `sys.exit(-1)` on
an unsupported platform. -/
def mkConfig (h : Host) : Option Config :=
  if supportedPlatform h.platform then some ⟨h.platform, isShadercAvailable h⟩ else none

/-- One step of an action: the `Config` platform check, an external command
(with the directory it runs in, its argv, and whether `shell=True` was
passed), or a file-system operation. -/
inductive Step
  | configCheck (platform : String)
  | cmd (cwd : String) (argv : List String) (shell : Bool)
  | copyFile (src dst : String)
  | createDummy (file : String)
  | removePath (path : String)
  | editFile (path : String)
deriving DecidableEq

def isCmd : Step → Bool
  | .cmd _ _ _ => true
  | _ => false

def isFileOp : Step → Bool
  | .copyFile _ _ => true
  | .createDummy _ => true
  | .removePath _ => true
  | .editFile _ => true
  | _ => false

/-- Exit codes of the successive external commands, by invocation index. -/
abbrev Oracle := Nat → Int

inductive Failure
  | unsupportedPlatform
  | cmdFailed (code : Int)
deriving DecidableEq

structure RunState where
  performed : List Step
  failure : Option Failure
deriving DecidableEq

/-- Number of external commands in a step list. -/
def numCmds (l : List Step) : Nat := (l.filter isCmd).length

/-- Run the steps of an action in order.
`subprocess.run(...).check_returncode()` raises `CalledProcessError` on a
non-zero exit status, which skips every remaining statement of the handler;
`Config.__init__` calls `sys.exit(-1)` when the platform is unsupported.
`k` counts the command invocations made so far. -/
def runSteps (o : Oracle) : List Step → Nat → RunState
  | [], _ => ⟨[], none⟩
  | s :: rest, k =>
    match s with
    | .configCheck p =>
      if supportedPlatform p then
        let r := runSteps o rest k
        ⟨s :: r.performed, r.failure⟩
      else ⟨[s], some .unsupportedPlatform⟩
    | .cmd _ _ _ =>
      if o k = 0 then
        let r := runSteps o rest (k + 1)
        ⟨s :: r.performed, r.failure⟩
      else ⟨[s], some (.cmdFailed (o k))⟩
    | _ =>
      let r := runSteps o rest k
      ⟨s :: r.performed, r.failure⟩

/-- The process exit status: 0 on success; an uncaught `CalledProcessError`
makes the interpreter exit with status 1; `sys.exit(-1)` exits with 255. -/
def scriptExit (r : RunState) : Int :=
  match r.failure with
  | none => 0
  | some .unsupportedPlatform => 255
  | some (.cmdFailed _) => 1

/-- `server_build` (build.py lines 134-188). -/
def serverBuildSteps (platform : String) (simulator soem twincat main : Bool) : List Step :=
  let isWin := platform == "Windows"
  [Step.configCheck platform]
  ++ (if simulator then
      [Step.cmd "simulator" ["cargo", "build", "--release", "--features", "unity"] false,
       (if isWin then
          Step.copyFile "target/release/simulator.exe" "target/release/simulator-unity.exe"
        else
          Step.copyFile "target/release/simulator" "target/release/simulator-unity"),
       Step.cmd "simulator" ["cargo", "build", "--release"] false]
    else [])
  ++ (if soem then [Step.cmd "SOEMAUTDServer" ["cargo", "build", "--release"] false] else [])
  ++ (if twincat then
      [Step.cmd "TwinCATAUTDServerLightweight" ["cargo", "build", "--release"] false]
    else [])
  ++ (if main then
      [Step.cmd "." ["npm", "install"] isWin,
       Step.createDummy "target/release/simulator-unity",
       Step.createDummy "target/release/simulator",
       Step.createDummy "target/release/SOEMAUTDServer",
       Step.createDummy "target/release/TwinCATAUTDServerLightweight",
       Step.cmd "." ["npm", "run", "tauri", "build"] isWin]
    else [])

/-- The `cargo clippy --tests -- -D warnings` command `server_lint` assembles. -/
def clippyCmd (dir : String) : Step :=
  Step.cmd dir ["cargo", "clippy", "--tests", "--", "-D", "warnings"] false

/-- `server_lint` (build.py lines 190-225); note it constructs no `Config`. -/
def serverLintSteps (simulator soem twincat main : Bool) : List Step :=
  (if simulator then [clippyCmd "simulator"] else [])
  ++ (if soem then [clippyCmd "SOEMAUTDServer"] else [])
  ++ (if twincat then [clippyCmd "TwinCATAUTDServerLightweight"] else [])
  ++ (if main then [clippyCmd "src-tauri"] else [])

/-- `server_clear` (build.py lines 228-248). -/
def serverClearSteps (platform : String) : List Step :=
  let isWin := platform == "Windows"
  [Step.configCheck platform,
   Step.cmd "." ["npm", "cache", "clean", "--force"] isWin,
   Step.removePath "node_modules",
   Step.removePath "dist",
   Step.removePath "src-tauri/assets",
   Step.removePath "src-tauri/NOTICE",
   Step.removePath "src-tauri/LICENSE*",
   Step.removePath "src-tauri/simulator*",
   Step.removePath "src-tauri/SOEMAUTDServer*",
   Step.cmd "." ["cargo", "clean"] false]

/-- `util_update_ver` (build.py lines 251-353): the `Config` check, the
in-place text edits over the glob-matched files plus `package.json` and
`src-tauri/tauri.conf.json`, then four `cargo update` invocations and `npm i`.
`tomls` and `notices` are the paths the two recursive globs return. -/
def utilUpdateVerSteps (platform : String) (tomls notices : List String) : List Step :=
  let isWin := platform == "Windows"
  [Step.configCheck platform]
  ++ tomls.map Step.editFile
  ++ notices.map Step.editFile
  ++ [Step.editFile "package.json",
      Step.editFile "src-tauri/tauri.conf.json",
      Step.cmd "SOEMAUTDServer" ["cargo", "update"] false,
      Step.cmd "TwinCATAUTDServerLightweight" ["cargo", "update"] false,
      Step.cmd "simulator" ["cargo", "update"] false,
      Step.cmd "src-tauri" ["cargo", "update"] false,
      Step.cmd "." ["npm", "i"] isWin]

/-- The four subcommand handlers with their inputs. -/
inductive ScriptAction
  | build (platform : String) (simulator soem twincat main : Bool)
  | lint (simulator soem twincat main : Bool)
  | clear (platform : String)
  | upver (platform : String) (tomls notices : List String)

def actionSteps : ScriptAction → List Step
  | .build platform simulator soem twincat main =>
      serverBuildSteps platform simulator soem twincat main
  | .lint simulator soem twincat main => serverLintSteps simulator soem twincat main
  | .clear platform => serverClearSteps platform
  | .upver platform tomls notices => utilUpdateVerSteps platform tomls notices

def execAction (a : ScriptAction) (o : Oracle) : RunState := runSteps o (actionSteps a) 0

/-- Process state for the `working_dir` context manager: the current working
directory plus arbitrary further state. -/
structure Proc (σ : Type) where
  cwd : String
  inner : σ

/-- A body either returns normally or raises. -/
inductive Outcome (α : Type)
  | ok (value : α)
  | exn (message : String)

/-- `working_dir` (build.py lines 69-76): save `os.getcwd()`, `os.chdir(path)`,
run the body, and restore the saved directory in a `finally` block — executed
both when the body returns and when it raises. -/
def workingDir {σ α : Type} (path : String) (body : Proc σ → Outcome α × Proc σ)
    (s : Proc σ) : Outcome α × Proc σ :=
  let cwd := s.cwd
  let s1 : Proc σ := { s with cwd := path }
  let (r, s2) := body s1
  (r, { s2 with cwd := cwd })

/-- Minimal disk model for `create_dummy_if_not_exists`: the directories that
exist and the files with their contents. -/
structure DiskState where
  dirs : List String
  files : List (String × String)

/-- The stem of a file name under `pathlib` rules: the part before the last
dot, a dot at position 0 not counting (`.bashrc` has no suffix). -/
def stemChars (cs : List Char) : List Char :=
  match splitLastLit ['.'] cs with
  | some (g, _) => if g.isEmpty then cs else g
  | none => cs

/-- Split a character list at every `/`. -/
def splitSlash : List Char → List (List Char)
  | [] => [[]]
  | c :: rest =>
    match splitSlash rest with
    | [] => [[]]
    | comp :: comps => if c = '/' then [] :: comp :: comps else (c :: comp) :: comps

/-- Join path components with `/`. -/
def joinSlash : List (List Char) → List Char
  | [] => []
  | [comp] => comp
  | comp :: comps => comp ++ '/' :: joinSlash comps

/-- `pathlib.Path.with_suffix(".exe")`: replace the extension of the last
component, appending `.exe` when it has none. -/
def withSuffixExe (file : String) : String :=
  let comps := splitSlash file.toList
  String.mk (joinSlash (comps.dropLast ++ [stemChars (comps.getLastD []) ++ ".exe".toList]))

/-- The path actually touched: `.exe`-suffixed on Windows. -/
def createDummyTarget (isWin : Bool) (file : String) : String :=
  if isWin then withSuffixExe file else file

/-- The ancestor directories of a path. -/
def parentDirs (file : String) : List String :=
  let comps := splitSlash file.toList
  (List.range (comps.length - 1)).map fun i => String.mk (joinSlash (comps.take (i + 1)))

/-- `path.parent.mkdir(parents=True, exist_ok=True)`. -/
def mkdirParents (file : String) (d : DiskState) : DiskState :=
  { d with dirs := d.dirs ++ (parentDirs file).filter (fun p => !d.dirs.contains p) }

/-- `pathlib.Path.touch()`: creates an empty file if missing; otherwise only
updates timestamps, leaving the content unchanged. -/
def touchFile (p : String) (d : DiskState) : DiskState :=
  if (d.files.lookup p).isSome then d else { d with files := d.files ++ [(p, "")] }

/-- `create_dummy_if_not_exists` (build.py lines 175-185). -/
def createDummyIfNotExists (isWin : Bool) (file : String) (d : DiskState) : DiskState :=
  touchFile (createDummyTarget isWin file) (mkdirParents (createDummyTarget isWin file) d)

/-- The four files the `--main` step touches (build.py lines 182-185). -/
def dummyFiles : List String :=
  ["target/release/simulator-unity", "target/release/simulator",
   "target/release/SOEMAUTDServer", "target/release/TwinCATAUTDServerLightweight"]

theorem stripPre_append (p x : Line) : stripPre p (p ++ x) = some x := by
  induction p with
  | nil => rfl
  | cons c cs ih => simp [stripPre, ih]

theorem stripPre_eq_some {p l r : Line} (h : stripPre p l = some r) : l = p ++ r := by
  induction p generalizing l with
  | nil => simpa [stripPre] using h
  | cons c cs ih =>
    cases l with
    | nil => simp [stripPre] at h
    | cons d ds =>
      simp only [stripPre] at h
      split at h
      · next heq => subst heq; simpa using ih h
      · exact absurd h (by simp)

theorem stripPre_iff {p l r : Line} : stripPre p l = some r ↔ l = p ++ r := by
  constructor
  · exact stripPre_eq_some
  · rintro rfl; exact stripPre_append p r

theorem breakAtChar_eq_some {ch : Char} {l a b : Line}
    (h : breakAtChar ch l = some (a, b)) : l = a ++ ch :: b ∧ ch ∉ a := by
  induction l generalizing a b with
  | nil => simp [breakAtChar] at h
  | cons c cs ih =>
    simp only [breakAtChar] at h
    split at h
    · next heq =>
      subst heq
      obtain ⟨rfl, rfl⟩ : a = [] ∧ cs = b := by simpa using h
      simp
    · next hne =>
      cases hbr : breakAtChar ch cs with
      | none => rw [hbr] at h; exact absurd h (by simp)
      | some p =>
        obtain ⟨a', b'⟩ := p
        rw [hbr] at h
        obtain ⟨rfl, rfl⟩ : c :: a' = a ∧ b' = b := by simpa using h
        obtain ⟨rfl, hn⟩ := ih hbr
        refine ⟨rfl, ?_⟩
        simp only [List.mem_cons, not_or]
        exact ⟨fun h => hne h.symm, hn⟩

theorem breakAtChar_append {ch : Char} {a : Line} (b : Line) (ha : ch ∉ a) :
    breakAtChar ch (a ++ ch :: b) = some (a, b) := by
  induction a with
  | nil => simp [breakAtChar]
  | cons c cs ih =>
    have hc : c ≠ ch := by intro h; exact ha (by simp [h])
    have hcs : ch ∉ cs := fun h => ha (by simp [h])
    simp [breakAtChar, hc, ih hcs]

theorem breakAtChar_eq_none {ch : Char} {l : Line}
    (h : breakAtChar ch l = none) : ch ∉ l := by
  induction l with
  | nil => simp
  | cons c cs ih =>
    simp only [breakAtChar] at h
    split at h
    · exact absurd h (by simp)
    · next hne =>
      cases hbr : breakAtChar ch cs with
      | none => simpa [hne, Ne.symm hne] using ih hbr
      | some p => rw [hbr] at h; exact absurd h (by simp)

theorem cons_decomp {c d : Char} {cs p lit r : Line}
    (h : c :: cs = (d :: p) ++ lit ++ r) : d = c ∧ cs = p ++ lit ++ r := by
  simp only [List.cons_append] at h
  exact ⟨(List.cons_eq_cons.mp h).1.symm, (List.cons_eq_cons.mp h).2⟩

theorem nil_decomp {p lit r : Line} (h : ([] : Line) = p ++ lit ++ r) :
    p = [] ∧ lit = [] ∧ r = [] := by
  have h1 := List.append_eq_nil.mp h.symm
  have h2 := List.append_eq_nil.mp h1.1
  exact ⟨h2.1, h2.2, h1.2⟩

theorem splitFirstLit_sound {lit l pre r : Line}
    (h : splitFirstLit lit l = some (pre, r)) : l = pre ++ lit ++ r := by
  induction l generalizing pre r with
  | nil =>
    simp only [splitFirstLit] at h
    cases hs : stripPre lit ([] : Line) with
    | none => rw [hs] at h; exact absurd h (by simp)
    | some r' =>
      rw [hs] at h
      obtain ⟨rfl, rfl⟩ : ([] : Line) = pre ∧ r' = r := by simpa using h
      simpa using stripPre_eq_some hs
  | cons c cs ih =>
    simp only [splitFirstLit] at h
    cases hs : stripPre lit (c :: cs) with
    | some r' =>
      rw [hs] at h
      obtain ⟨rfl, rfl⟩ : ([] : Line) = pre ∧ r' = r := by simpa using h
      simpa using stripPre_eq_some hs
    | none =>
      rw [hs] at h
      cases hr : splitFirstLit lit cs with
      | none => rw [hr] at h; exact absurd h (by simp)
      | some p =>
        obtain ⟨pre', r'⟩ := p
        rw [hr] at h
        obtain ⟨rfl, rfl⟩ : c :: pre' = pre ∧ r' = r := by simpa using h
        simpa using ih hr

theorem splitFirstLit_min {lit l pre r : Line}
    (h : splitFirstLit lit l = some (pre, r)) :
    ∀ p' r', l = p' ++ lit ++ r' → pre.length ≤ p'.length := by
  induction l generalizing pre r with
  | nil =>
    intro p' r' hdec
    obtain ⟨hp, -, -⟩ := nil_decomp (splitFirstLit_sound h)
    simp [hp]
  | cons c cs ih =>
    intro p' r' hdec
    simp only [splitFirstLit] at h
    cases hs : stripPre lit (c :: cs) with
    | some r₀ =>
      rw [hs] at h
      obtain ⟨rfl, rfl⟩ : ([] : Line) = pre ∧ r₀ = r := by simpa using h
      simp
    | none =>
      rw [hs] at h
      cases hr : splitFirstLit lit cs with
      | none => rw [hr] at h; exact absurd h (by simp)
      | some p =>
        obtain ⟨pre', r₀⟩ := p
        rw [hr] at h
        obtain ⟨rfl, rfl⟩ : c :: pre' = pre ∧ r₀ = r := by simpa using h
        cases p' with
        | nil =>
          exfalso
          have hstrip : stripPre lit (c :: cs) = some r' := by
            rw [show c :: cs = lit ++ r' by simpa using hdec]
            exact stripPre_append lit r'
          rw [hstrip] at hs; exact absurd hs (by simp)
        | cons d p'' =>
          obtain ⟨-, hd⟩ := cons_decomp hdec
          simpa using Nat.succ_le_succ (ih hr p'' r' hd)

theorem splitFirstLit_complete {lit l p' r' : Line} (hdec : l = p' ++ lit ++ r') :
    (splitFirstLit lit l).isSome := by
  induction l generalizing p' with
  | nil =>
    obtain ⟨-, rfl, -⟩ := nil_decomp hdec
    simp [splitFirstLit, stripPre]
  | cons c cs ih =>
    simp only [splitFirstLit]
    cases hs : stripPre lit (c :: cs) with
    | some r₀ => simp
    | none =>
      cases p' with
      | nil =>
        exfalso
        have hstrip : stripPre lit (c :: cs) = some r' := by
          rw [show c :: cs = lit ++ r' by simpa using hdec]
          exact stripPre_append lit r'
        rw [hstrip] at hs; exact absurd hs (by simp)
      | cons d p'' =>
        obtain ⟨-, hd⟩ := cons_decomp hdec
        have hrec := ih hd
        cases hr : splitFirstLit lit cs with
        | none => rw [hr] at hrec; simp at hrec
        | some q => obtain ⟨a, b⟩ := q; simp

theorem splitFirstLit_eq {lit l pre r : Line} (hdec : l = pre ++ lit ++ r)
    (hmin : ∀ p' r', l = p' ++ lit ++ r' → pre.length ≤ p'.length) :
    splitFirstLit lit l = some (pre, r) := by
  have hsome := splitFirstLit_complete hdec
  cases hr : splitFirstLit lit l with
  | none => rw [hr] at hsome; simp at hsome
  | some p =>
    obtain ⟨p₀, r₀⟩ := p
    have hs := splitFirstLit_sound hr
    have h1 : p₀.length ≤ pre.length := splitFirstLit_min hr pre r hdec
    have h2 : pre.length ≤ p₀.length := hmin p₀ r₀ hs
    have heq : pre ++ (lit ++ r) = p₀ ++ (lit ++ r₀) := by
      rw [← List.append_assoc, ← List.append_assoc]
      exact hdec.symm.trans hs
    obtain ⟨h3, h4⟩ := List.append_inj heq (Nat.le_antisymm h2 h1)
    have h6 : r = r₀ := List.append_cancel_left h4
    rw [h3, h6]

theorem splitLastLit_sound {lit l g t : Line}
    (h : splitLastLit lit l = some (g, t)) : l = g ++ lit ++ t := by
  induction l generalizing g t with
  | nil =>
    simp only [splitLastLit] at h
    cases hs : stripPre lit ([] : Line) with
    | none => rw [hs] at h; exact absurd h (by simp)
    | some r' =>
      rw [hs] at h
      obtain ⟨rfl, rfl⟩ : ([] : Line) = g ∧ r' = t := by simpa using h
      simpa using stripPre_eq_some hs
  | cons c cs ih =>
    simp only [splitLastLit] at h
    cases hr : splitLastLit lit cs with
    | some p =>
      obtain ⟨g', t'⟩ := p
      rw [hr] at h
      obtain ⟨rfl, rfl⟩ : c :: g' = g ∧ t' = t := by simpa using h
      simpa using ih hr
    | none =>
      rw [hr] at h
      cases hs : stripPre lit (c :: cs) with
      | none => rw [hs] at h; exact absurd h (by simp)
      | some r' =>
        rw [hs] at h
        obtain ⟨rfl, rfl⟩ : ([] : Line) = g ∧ r' = t := by simpa using h
        simpa using stripPre_eq_some hs

theorem splitLastLit_complete {lit l g' t' : Line} (hdec : l = g' ++ lit ++ t') :
    (splitLastLit lit l).isSome := by
  induction l generalizing g' t' with
  | nil =>
    obtain ⟨-, rfl, -⟩ := nil_decomp hdec
    simp [splitLastLit, stripPre]
  | cons c cs ih =>
    simp only [splitLastLit]
    cases hr : splitLastLit lit cs with
    | some p => obtain ⟨a, b⟩ := p; simp
    | none =>
      cases g' with
      | nil =>
        have hstrip : stripPre lit (c :: cs) = some t' := by
          rw [show c :: cs = lit ++ t' by simpa using hdec]
          exact stripPre_append lit t'
        simp [hstrip]
      | cons d g'' =>
        exfalso
        obtain ⟨-, hd⟩ := cons_decomp hdec
        have hrec := ih hd
        rw [hr] at hrec; simp at hrec

theorem splitLastLit_max {lit l g t : Line}
    (h : splitLastLit lit l = some (g, t)) :
    ∀ g' t', l = g' ++ lit ++ t' → g'.length ≤ g.length := by
  induction l generalizing g t with
  | nil =>
    intro g' t' hdec
    obtain ⟨rfl, -, -⟩ := nil_decomp hdec
    simp
  | cons c cs ih =>
    intro g' t' hdec
    simp only [splitLastLit] at h
    cases hr : splitLastLit lit cs with
    | some p =>
      obtain ⟨g₀, t₀⟩ := p
      rw [hr] at h
      obtain ⟨rfl, rfl⟩ : c :: g₀ = g ∧ t₀ = t := by simpa using h
      cases g' with
      | nil => simp
      | cons d g'' =>
        obtain ⟨-, hd⟩ := cons_decomp hdec
        simpa using Nat.succ_le_succ (ih hr g'' t' hd)
    | none =>
      rw [hr] at h
      cases g' with
      | nil => simp
      | cons d g'' =>
        exfalso
        obtain ⟨-, hd⟩ := cons_decomp hdec
        have hrec := splitLastLit_complete hd
        rw [hr] at hrec; simp at hrec

theorem splitLastLit_eq {lit l g t : Line} (hdec : l = g ++ lit ++ t)
    (hmax : ∀ g' t', l = g' ++ lit ++ t' → g'.length ≤ g.length) :
    splitLastLit lit l = some (g, t) := by
  have hsome := splitLastLit_complete hdec
  cases hr : splitLastLit lit l with
  | none => rw [hr] at hsome; simp at hsome
  | some p =>
    obtain ⟨g₀, t₀⟩ := p
    have hs := splitLastLit_sound hr
    have h1 : g₀.length ≤ g.length := hmax g₀ t₀ hs
    have h2 : g.length ≤ g₀.length := splitLastLit_max hr g t hdec
    have heq : g ++ (lit ++ t) = g₀ ++ (lit ++ t₀) := by
      rw [← List.append_assoc, ← List.append_assoc]
      exact hdec.symm.trans hs
    obtain ⟨h3, h4⟩ := List.append_inj heq (Nat.le_antisymm h2 h1)
    have h6 : t = t₀ := List.append_cancel_left h4
    rw [h3, h6]

theorem breakAtChar_isSome_of_mem {ch : Char} {l : Line} (h : ch ∈ l) :
    (breakAtChar ch l).isSome := by
  cases hb : breakAtChar ch l with
  | none => exact absurd h (breakAtChar_eq_none hb)
  | some p => simp

theorem quote_split_unique {ch : Char} {a t a' t' : Line} (ha : ch ∉ a) (ha' : ch ∉ a')
    (h : a ++ ch :: t = a' ++ ch :: t') : a = a' ∧ t = t' := by
  have h1 : breakAtChar ch (a ++ ch :: t) = some (a, t) := breakAtChar_append t ha
  have h2 : breakAtChar ch (a' ++ ch :: t') = some (a', t') := breakAtChar_append t' ha'
  rw [h] at h1
  rw [h1] at h2
  simpa using h2

theorem splitLastLit_single_not_mem {ch : Char} {l g t : Line}
    (h : splitLastLit [ch] l = some (g, t)) : ch ∉ t := by
  intro hmem
  obtain ⟨x, y, rfl⟩ := List.append_of_mem hmem
  have hdec := splitLastLit_sound h
  have hdec' : l = (g ++ ch :: x) ++ [ch] ++ y := by
    rw [hdec]; simp
  have hle := splitLastLit_max h (g ++ ch :: x) y hdec'
  simp at hle

theorem splitLastLit_single_eq {ch : Char} {g t : Line} (hnt : ch ∉ t) :
    splitLastLit [ch] (g ++ [ch] ++ t) = some (g, t) := by
  refine splitLastLit_eq rfl ?_
  intro g' t' hdec
  by_contra hlt
  push_neg at hlt
  have heq : g ++ (ch :: t) = g' ++ (ch :: t') := by simpa using hdec
  rw [List.append_eq_append_iff] at heq
  rcases heq with ⟨a', ha1, ha2⟩ | ⟨c', hc1, hc2⟩
  · cases a' with
    | nil =>
      rw [show g' = g by simpa using ha1] at hlt
      omega
    | cons x xs =>
      have hx : ch = x ∧ t = xs ++ ch :: t' := by
        have h2 := ha2; simp at h2; exact ⟨h2.1, h2.2⟩
      exact hnt (by rw [hx.2]; simp)
  · have hlen := congrArg List.length hc1
    simp at hlen
    omega

theorem splitLastLitThenQuote_sound {lit l g a t : Line}
    (h : splitLastLitThenQuote lit l = some (g, a, t)) :
    l = g ++ lit ++ a ++ '"' :: t ∧ '"' ∉ a := by
  induction l generalizing g a t with
  | nil => simp [splitLastLitThenQuote] at h
  | cons c cs ih =>
    simp only [splitLastLitThenQuote] at h
    split at h
    · rename_i g' a' t' hr
      obtain ⟨rfl, rfl, rfl⟩ : c :: g' = g ∧ a' = a ∧ t' = t := by simpa using h
      obtain ⟨hd, hn⟩ := ih hr
      exact ⟨by simpa using hd, hn⟩
    · rename_i hr
      split at h
      · rename_i r hs
        split at h
        · rename_i a' t' hb
          obtain ⟨rfl, rfl, rfl⟩ : ([] : Line) = g ∧ a' = a ∧ t' = t := by simpa using h
          obtain ⟨hd, hn⟩ := breakAtChar_eq_some hb
          refine ⟨?_, hn⟩
          rw [stripPre_eq_some hs, hd]
          simp
        · exact absurd h (by simp)
      · exact absurd h (by simp)

theorem splitLastLitThenQuote_complete {lit l g' r' : Line}
    (hdec : l = g' ++ lit ++ r') (hq : '"' ∈ r') :
    (splitLastLitThenQuote lit l).isSome := by
  induction l generalizing g' with
  | nil =>
    obtain ⟨-, -, rfl⟩ := nil_decomp hdec
    simp at hq
  | cons c cs ih =>
    simp only [splitLastLitThenQuote]
    cases hr : splitLastLitThenQuote lit cs with
    | some p => obtain ⟨x, y, z⟩ := p; simp
    | none =>
      cases g' with
      | nil =>
        have hstrip : stripPre lit (c :: cs) = some r' := by
          rw [show c :: cs = lit ++ r' by simpa using hdec]
          exact stripPre_append lit r'
        rw [hstrip]
        cases hbb : breakAtChar '"' r' with
        | none => exact absurd hq (breakAtChar_eq_none hbb)
        | some q => obtain ⟨x, y⟩ := q; simp [hbb]
      | cons d g'' =>
        exfalso
        obtain ⟨-, hd⟩ := cons_decomp hdec
        have hrec := ih hd
        rw [hr] at hrec; simp at hrec

theorem splitLastLitThenQuote_max {lit l g a t : Line}
    (h : splitLastLitThenQuote lit l = some (g, a, t)) :
    ∀ g' r', l = g' ++ lit ++ r' → '"' ∈ r' → g'.length ≤ g.length := by
  induction l generalizing g a t with
  | nil =>
    intro g' r' hdec _
    obtain ⟨rfl, -, -⟩ := nil_decomp hdec
    simp
  | cons c cs ih =>
    intro g' r' hdec hq
    simp only [splitLastLitThenQuote] at h
    split at h
    · rename_i g₀ a₀ t₀ hr
      obtain ⟨rfl, rfl, rfl⟩ : c :: g₀ = g ∧ a₀ = a ∧ t₀ = t := by simpa using h
      cases g' with
      | nil => simp
      | cons d g'' =>
        obtain ⟨-, hd⟩ := cons_decomp hdec
        simpa using Nat.succ_le_succ (ih hr g'' r' hd hq)
    · rename_i hr
      cases g' with
      | nil => simp
      | cons d g'' =>
        exfalso
        obtain ⟨-, hd⟩ := cons_decomp hdec
        have hrec := splitLastLitThenQuote_complete hd hq
        rw [hr] at hrec; simp at hrec

theorem splitLastLitThenQuote_eq {lit l g a t : Line}
    (hdec : l = g ++ lit ++ a ++ '"' :: t) (hna : '"' ∉ a)
    (hmax : ∀ g' r', l = g' ++ lit ++ r' → '"' ∈ r' → g'.length ≤ g.length) :
    splitLastLitThenQuote lit l = some (g, a, t) := by
  have hdec' : l = g ++ lit ++ (a ++ '"' :: t) := by rw [hdec]; simp
  have hsome := splitLastLitThenQuote_complete hdec' (by simp)
  cases hr : splitLastLitThenQuote lit l with
  | none => rw [hr] at hsome; simp at hsome
  | some p =>
    obtain ⟨g₀, a₀, t₀⟩ := p
    obtain ⟨hs, hna₀⟩ := splitLastLitThenQuote_sound hr
    have hs' : l = g₀ ++ lit ++ (a₀ ++ '"' :: t₀) := by rw [hs]; simp
    have h1 : g₀.length ≤ g.length := hmax g₀ (a₀ ++ '"' :: t₀) hs' (by simp)
    have h2 : g.length ≤ g₀.length := splitLastLitThenQuote_max hr g (a ++ '"' :: t) hdec' (by simp)
    have heq : g ++ (lit ++ (a ++ '"' :: t)) = g₀ ++ (lit ++ (a₀ ++ '"' :: t₀)) := by
      have hh := hdec'.symm.trans hs'
      simpa using hh
    obtain ⟨h3, h4⟩ := List.append_inj heq (Nat.le_antisymm h2 h1)
    have h5 : a ++ '"' :: t = a₀ ++ '"' :: t₀ := List.append_cancel_left h4
    obtain ⟨h6, h7⟩ := quote_split_unique hna hna₀ h5
    rw [h3, h6, h7]

theorem splitG2_sound {s g2 g3 t : Line} (h : splitG2 s = some (g2, g3, t)) :
    s = g2 ++ ' ' :: '(' :: (g3 ++ ')' :: t) ∧ ')' ∉ t := by
  induction s generalizing g2 g3 t with
  | nil => simp [splitG2] at h
  | cons c cs ih =>
    simp only [splitG2] at h
    split at h
    · rename_i g₂' g₃' t' hr
      obtain ⟨rfl, rfl, rfl⟩ : c :: g₂' = g2 ∧ g₃' = g3 ∧ t' = t := by simpa using h
      obtain ⟨hd, hn⟩ := ih hr
      exact ⟨by simpa using hd, hn⟩
    · rename_i hr
      split at h
      · rename_i hc
        subst hc
        split at h
        · rename_i u
          split at h
          · rename_i g₃' t' hu
            obtain ⟨rfl, rfl, rfl⟩ : ([] : Line) = g2 ∧ g₃' = g3 ∧ t' = t := by simpa using h
            have hdec := splitLastLit_sound hu
            refine ⟨?_, splitLastLit_single_not_mem hu⟩
            rw [show u = g₃' ++ ')' :: t' by simpa using hdec]
            simp
          · exact absurd h (by simp)
        · exact absurd h (by simp)
      · exact absurd h (by simp)

theorem cons_decomp2 {c d x : Char} {cs p b : Line}
    (h : c :: cs = (d :: p) ++ x :: b) : d = c ∧ cs = p ++ x :: b := by
  simp only [List.cons_append] at h
  exact ⟨(List.cons_eq_cons.mp h).1.symm, (List.cons_eq_cons.mp h).2⟩

theorem nil_not_append_cons {x : Char} {a b : Line} (h : ([] : Line) = a ++ x :: b) : False := by
  cases a <;> simp at h

theorem splitG2_complete {s a b : Line} (hdec : s = a ++ ' ' :: '(' :: b)
    (hp : ')' ∈ b) : (splitG2 s).isSome := by
  induction s generalizing a with
  | nil => exact absurd hdec nil_not_append_cons
  | cons c cs ih =>
    simp only [splitG2]
    cases hr : splitG2 cs with
    | some p => obtain ⟨x, y, z⟩ := p; simp
    | none =>
      cases a with
      | nil =>
        obtain ⟨rfl, rfl⟩ : ' ' = c ∧ cs = '(' :: b := by
          have h2 : c :: cs = ' ' :: '(' :: b := by simpa using hdec
          exact ⟨(List.cons_eq_cons.mp h2).1.symm, (List.cons_eq_cons.mp h2).2⟩
        obtain ⟨x, y, rfl⟩ := List.append_of_mem hp
        have hc := splitLastLit_complete (show x ++ ')' :: y = x ++ [')'] ++ y by simp)
        cases hu : splitLastLit [')'] (x ++ ')' :: y) with
        | none => rw [hu] at hc; simp at hc
        | some q => obtain ⟨g₃', t'⟩ := q; simp [hu]
      | cons d a'' =>
        obtain ⟨-, hd⟩ := cons_decomp2 hdec
        exfalso
        have hrec := ih hd
        rw [hr] at hrec; simp at hrec

theorem splitG2_max {s g2 g3 t : Line} (h : splitG2 s = some (g2, g3, t)) :
    ∀ a b, s = a ++ ' ' :: '(' :: b → ')' ∈ b → a.length ≤ g2.length := by
  induction s generalizing g2 g3 t with
  | nil => intro a b hdec _; exact absurd hdec nil_not_append_cons
  | cons c cs ih =>
    intro a b hdec hp
    simp only [splitG2] at h
    split at h
    · rename_i g₂' g₃' t' hr
      obtain ⟨rfl, rfl, rfl⟩ : c :: g₂' = g2 ∧ g₃' = g3 ∧ t' = t := by simpa using h
      cases a with
      | nil => simp
      | cons d a'' =>
        obtain ⟨-, hd⟩ := cons_decomp2 hdec
        simpa using Nat.succ_le_succ (ih hr a'' b hd hp)
    · rename_i hr
      cases a with
      | nil => simp
      | cons d a'' =>
        exfalso
        obtain ⟨-, hd⟩ := cons_decomp2 hdec
        have hrec := splitG2_complete hd hp
        rw [hr] at hrec; simp at hrec

theorem splitG2_eq {s g2 u g3 t : Line} (hdec : s = g2 ++ ' ' :: '(' :: u)
    (hu : splitLastLit [')'] u = some (g3, t))
    (hmax : ∀ a b, s = a ++ ' ' :: '(' :: b → ')' ∈ b → a.length ≤ g2.length) :
    splitG2 s = some (g2, g3, t) := by
  have hud := splitLastLit_sound hu
  have hpu : ')' ∈ u := by rw [hud]; simp
  have hsome := splitG2_complete hdec hpu
  cases hr : splitG2 s with
  | none => rw [hr] at hsome; simp at hsome
  | some p =>
    obtain ⟨g₂', g₃', t'⟩ := p
    obtain ⟨hs, hnt'⟩ := splitG2_sound hr
    have h1 : g₂'.length ≤ g2.length := hmax g₂' (g₃' ++ ')' :: t') hs (by simp)
    have h2 : g2.length ≤ g₂'.length := splitG2_max hr g2 u hdec hpu
    have heq : g2 ++ (' ' :: '(' :: u) = g₂' ++ (' ' :: '(' :: (g₃' ++ ')' :: t')) := by
      have hh := hdec.symm.trans hs
      simpa using hh
    obtain ⟨h3, h4⟩ := List.append_inj heq (Nat.le_antisymm h2 h1)
    have h5 : u = g₃' ++ [')'] ++ t' := by
      have := (List.cons_eq_cons.mp ((List.cons_eq_cons.mp h4).2)).2
      rw [this]; simp
    have h6 : splitLastLit [')'] u = some (g₃', t') := by
      rw [h5]; exact splitLastLit_single_eq hnt'
    rw [hu] at h6
    obtain ⟨h7, h8⟩ : g3 = g₃' ∧ t = t' := by
      have := h6; simp at this; exact ⟨this.1, this.2⟩
    rw [h3, h7, h8]

theorem splitG1_sound {r g1 g2 g3 t : Line} (h : splitG1 r = some (g1, g2, g3, t)) :
    ∃ s, r = g1 ++ ' ' :: s ∧ splitG2 s = some (g2, g3, t) := by
  induction r generalizing g1 g2 g3 t with
  | nil => simp [splitG1] at h
  | cons c cs ih =>
    simp only [splitG1] at h
    split at h
    · rename_i g₁' g₂' g₃' t' hr
      obtain ⟨rfl, rfl, rfl, rfl⟩ : c :: g₁' = g1 ∧ g₂' = g2 ∧ g₃' = g3 ∧ t' = t := by
        simpa using h
      obtain ⟨s, hd, hs⟩ := ih hr
      exact ⟨s, by simp [hd], hs⟩
    · rename_i hr
      split at h
      · rename_i hc
        subst hc
        split at h
        · rename_i g₂' g₃' t' hs
          obtain ⟨rfl, rfl, rfl, rfl⟩ : ([] : Line) = g1 ∧ g₂' = g2 ∧ g₃' = g3 ∧ t' = t := by
            simpa using h
          exact ⟨cs, by simp, hs⟩
        · exact absurd h (by simp)
      · exact absurd h (by simp)

theorem splitG1_complete {r a b : Line} (hdec : r = a ++ ' ' :: b)
    (hb : (splitG2 b).isSome) : (splitG1 r).isSome := by
  induction r generalizing a with
  | nil => exact absurd hdec nil_not_append_cons
  | cons c cs ih =>
    simp only [splitG1]
    cases hr : splitG1 cs with
    | some p => obtain ⟨x, y, z, w⟩ := p; simp
    | none =>
      cases a with
      | nil =>
        obtain ⟨rfl, rfl⟩ : ' ' = c ∧ cs = b := by
          have h2 : c :: cs = ' ' :: b := by simpa using hdec
          exact ⟨(List.cons_eq_cons.mp h2).1.symm, (List.cons_eq_cons.mp h2).2⟩
        cases hs : splitG2 cs with
        | none => rw [hs] at hb; simp at hb
        | some q => obtain ⟨x, y, z⟩ := q; simp [hs]
      | cons d a'' =>
        obtain ⟨-, hd⟩ := cons_decomp2 hdec
        exfalso
        have hrec := ih hd
        rw [hr] at hrec; simp at hrec

theorem splitG1_max {r g1 g2 g3 t : Line} (h : splitG1 r = some (g1, g2, g3, t)) :
    ∀ a b, r = a ++ ' ' :: b → (splitG2 b).isSome → a.length ≤ g1.length := by
  induction r generalizing g1 g2 g3 t with
  | nil => intro a b hdec _; exact absurd hdec nil_not_append_cons
  | cons c cs ih =>
    intro a b hdec hb
    simp only [splitG1] at h
    split at h
    · rename_i g₁' g₂' g₃' t' hr
      obtain ⟨rfl, rfl, rfl, rfl⟩ : c :: g₁' = g1 ∧ g₂' = g2 ∧ g₃' = g3 ∧ t' = t := by
        simpa using h
      cases a with
      | nil => simp
      | cons d a'' =>
        obtain ⟨-, hd⟩ := cons_decomp2 hdec
        simpa using Nat.succ_le_succ (ih hr a'' b hd hb)
    · rename_i hr
      cases a with
      | nil => simp
      | cons d a'' =>
        exfalso
        obtain ⟨-, hd⟩ := cons_decomp2 hdec
        have hrec := splitG1_complete hd hb
        rw [hr] at hrec; simp at hrec

theorem splitG1_eq {r g1 s g2 g3 t : Line} (hdec : r = g1 ++ ' ' :: s)
    (hs : splitG2 s = some (g2, g3, t))
    (hmax : ∀ a b, r = a ++ ' ' :: b → (splitG2 b).isSome → a.length ≤ g1.length) :
    splitG1 r = some (g1, g2, g3, t) := by
  have hsome := splitG1_complete hdec (by simp [hs])
  cases hr : splitG1 r with
  | none => rw [hr] at hsome; simp at hsome
  | some p =>
    obtain ⟨g₁', g₂', g₃', t'⟩ := p
    obtain ⟨s', hd', hs'⟩ := splitG1_sound hr
    have h1 : g₁'.length ≤ g1.length := hmax g₁' s' hd' (by simp [hs'])
    have h2 : g1.length ≤ g₁'.length := splitG1_max hr g1 s hdec (by simp [hs])
    have heq : g1 ++ (' ' :: s) = g₁' ++ (' ' :: s') := by
      have hh := hdec.symm.trans hd'
      simpa using hh
    obtain ⟨h3, h4⟩ := List.append_inj heq (Nat.le_antisymm h2 h1)
    have h5 : s = s' := (List.cons_eq_cons.mp h4).2
    rw [← h5, hs] at hs'
    obtain ⟨ha, hb, hc⟩ : g2 = g₂' ∧ g3 = g₃' ∧ t = t' := by
      have := hs'; simp at this
      exact ⟨this.1, this.2.1, this.2.2⟩
    rw [h3, ha, hb, hc]

theorem numCmds_nil : numCmds [] = 0 := rfl

theorem numCmds_cons (s : Step) (l : List Step) :
    numCmds (s :: l) = (if isCmd s then 1 else 0) + numCmds l := by
  simp only [numCmds, List.filter]
  cases h : isCmd s <;> simp [List.length_cons, Nat.add_comm]

theorem runSteps_success {o : Oracle} {l : List Step} {k : Nat}
    (h : (runSteps o l k).failure = none) :
    (runSteps o l k).performed = l ∧ ∀ j, j < numCmds l → o (k + j) = 0 := by
  induction l generalizing k with
  | nil => exact ⟨rfl, by simp [numCmds_nil]⟩
  | cons s rest ih =>
    cases s with
    | configCheck p =>
      simp only [runSteps] at h ⊢
      split at h
      · next hs =>
        simp only [hs, if_true]
        obtain ⟨h1, h2⟩ := ih h
        refine ⟨by simp [h1], ?_⟩
        intro j hj
        rw [numCmds_cons] at hj
        simp [isCmd] at hj
        exact h2 j hj
      · simp at h
    | cmd cwd argv sh =>
      simp only [runSteps] at h ⊢
      split at h
      · next hz =>
        simp only [hz, if_true]
        obtain ⟨h1, h2⟩ := ih h
        refine ⟨by simp [h1], ?_⟩
        intro j hj
        rw [numCmds_cons] at hj
        simp [isCmd] at hj
        cases j with
        | zero => simpa using hz
        | succ j' =>
          have := h2 j' (by omega)
          have harith : k + 1 + j' = k + (j' + 1) := by omega
          rw [harith] at this
          exact this
      · simp at h
    | copyFile src dst =>
      simp only [runSteps] at h ⊢
      obtain ⟨h1, h2⟩ := ih h
      refine ⟨by simp [h1], ?_⟩
      intro j hj
      rw [numCmds_cons] at hj
      simp [isCmd] at hj
      exact h2 j hj
    | createDummy f =>
      simp only [runSteps] at h ⊢
      obtain ⟨h1, h2⟩ := ih h
      refine ⟨by simp [h1], ?_⟩
      intro j hj
      rw [numCmds_cons] at hj
      simp [isCmd] at hj
      exact h2 j hj
    | removePath p =>
      simp only [runSteps] at h ⊢
      obtain ⟨h1, h2⟩ := ih h
      refine ⟨by simp [h1], ?_⟩
      intro j hj
      rw [numCmds_cons] at hj
      simp [isCmd] at hj
      exact h2 j hj
    | editFile p =>
      simp only [runSteps] at h ⊢
      obtain ⟨h1, h2⟩ := ih h
      refine ⟨by simp [h1], ?_⟩
      intro j hj
      rw [numCmds_cons] at hj
      simp [isCmd] at hj
      exact h2 j hj

theorem runSteps_cmd_failure {o : Oracle} {l : List Step} {k : Nat} {e : Int}
    (h : (runSteps o l k).failure = some (.cmdFailed e)) :
    e ≠ 0 ∧
    ∃ pre cwd argv sh rest,
      l = pre ++ Step.cmd cwd argv sh :: rest ∧
      (runSteps o l k).performed = pre ++ [Step.cmd cwd argv sh] ∧
      o (k + numCmds pre) = e ∧
      ∀ j, j < numCmds pre → o (k + j) = 0 := by
  induction l generalizing k with
  | nil => simp [runSteps] at h
  | cons s rest ih =>
    cases s with
    | configCheck p =>
      simp only [runSteps] at h ⊢
      split at h
      · next hs =>
        simp only [hs, if_true]
        obtain ⟨hne, pre, cwd, argv, sh, rest', hdec, hperf, hor, hall⟩ := ih h
        refine ⟨hne, Step.configCheck p :: pre, cwd, argv, sh, rest', by simp [hdec], by simp [hperf], ?_, ?_⟩
        · rw [numCmds_cons]; simpa [isCmd] using hor
        · intro j hj
          rw [numCmds_cons] at hj
          simp [isCmd] at hj
          exact hall j hj
      · simp at h
    | cmd cwd argv sh =>
      simp only [runSteps] at h ⊢
      split at h
      · next hz =>
        simp only [hz, if_true]
        obtain ⟨hne, pre, cwd', argv', sh', rest', hdec, hperf, hor, hall⟩ := ih h
        refine ⟨hne, Step.cmd cwd argv sh :: pre, cwd', argv', sh', rest', by simp [hdec], by simp [hperf], ?_, ?_⟩
        · rw [numCmds_cons]
          simp only [isCmd, if_true]
          have harith : k + (1 + numCmds pre) = k + 1 + numCmds pre := by omega
          rw [harith]
          exact hor
        · intro j hj
          rw [numCmds_cons] at hj
          simp only [isCmd, if_true] at hj
          cases j with
          | zero => simpa using hz
          | succ j' =>
            have := hall j' (by omega)
            have harith : k + 1 + j' = k + (j' + 1) := by omega
            rw [harith] at this
            exact this
      · next hz =>
        have he : e = o k := by
          simp at h
          exact h.symm
        subst he
        simp only [if_neg hz]
        exact ⟨hz, [], cwd, argv, sh, rest, by simp, by simp, by simp [numCmds_nil], by simp [numCmds_nil]⟩
    | copyFile src dst =>
      simp only [runSteps] at h ⊢
      obtain ⟨hne, pre, cwd, argv, sh, rest', hdec, hperf, hor, hall⟩ := ih h
      refine ⟨hne, Step.copyFile src dst :: pre, cwd, argv, sh, rest', by simp [hdec], by simp [hperf], ?_, ?_⟩
      · rw [numCmds_cons]; simpa [isCmd] using hor
      · intro j hj
        rw [numCmds_cons] at hj
        simp [isCmd] at hj
        exact hall j hj
    | createDummy f =>
      simp only [runSteps] at h ⊢
      obtain ⟨hne, pre, cwd, argv, sh, rest', hdec, hperf, hor, hall⟩ := ih h
      refine ⟨hne, Step.createDummy f :: pre, cwd, argv, sh, rest', by simp [hdec], by simp [hperf], ?_, ?_⟩
      · rw [numCmds_cons]; simpa [isCmd] using hor
      · intro j hj
        rw [numCmds_cons] at hj
        simp [isCmd] at hj
        exact hall j hj
    | removePath p =>
      simp only [runSteps] at h ⊢
      obtain ⟨hne, pre, cwd, argv, sh, rest', hdec, hperf, hor, hall⟩ := ih h
      refine ⟨hne, Step.removePath p :: pre, cwd, argv, sh, rest', by simp [hdec], by simp [hperf], ?_, ?_⟩
      · rw [numCmds_cons]; simpa [isCmd] using hor
      · intro j hj
        rw [numCmds_cons] at hj
        simp [isCmd] at hj
        exact hall j hj
    | editFile p =>
      simp only [runSteps] at h ⊢
      obtain ⟨hne, pre, cwd, argv, sh, rest', hdec, hperf, hor, hall⟩ := ih h
      refine ⟨hne, Step.editFile p :: pre, cwd, argv, sh, rest', by simp [hdec], by simp [hperf], ?_, ?_⟩
      · rw [numCmds_cons]; simpa [isCmd] using hor
      · intro j hj
        rw [numCmds_cons] at hj
        simp [isCmd] at hj
        exact hall j hj

theorem runSteps_unsupported {o : Oracle} {p : String} {rest : List Step} {k : Nat}
    (hp : supportedPlatform p = false) :
    runSteps o (Step.configCheck p :: rest) k =
      ⟨[Step.configCheck p], some .unsupportedPlatform⟩ := by
  simp [runSteps, hp]

theorem lookup_append_none {l₁ l₂ : List (String × String)} {a : String}
    (h : l₁.lookup a = none) : (l₁ ++ l₂).lookup a = l₂.lookup a := by
  induction l₁ with
  | nil => rfl
  | cons e t ih =>
    obtain ⟨b, w⟩ := e
    simp only [List.lookup] at h ⊢
    split at h
    · exact absurd h (by simp)
    · next hne => simpa [hne] using ih h

theorem touchFile_lookup_isSome (p : String) (d : DiskState) :
    ((touchFile p d).files.lookup p).isSome = true := by
  unfold touchFile
  split
  · next hs => simpa using hs
  · next hs =>
    have hn : d.files.lookup p = none := by
      cases hl : d.files.lookup p with
      | none => rfl
      | some w => rw [hl] at hs; simp at hs
    simp only
    rw [lookup_append_none hn]
    simp [List.lookup]

theorem touchFile_dirs (p : String) (d : DiskState) : (touchFile p d).dirs = d.dirs := by
  unfold touchFile
  split <;> rfl

theorem touchFile_files_of_isSome (p : String) (d : DiskState)
    (h : (d.files.lookup p).isSome = true) : (touchFile p d).files = d.files := by
  unfold touchFile
  simp [h]

theorem mkdirParents_mem (file p : String) (d : DiskState) (hp : p ∈ parentDirs file) :
    p ∈ (mkdirParents file d).dirs := by
  unfold mkdirParents
  simp only
  by_cases hc : p ∈ d.dirs
  · exact List.mem_append_left _ hc
  · refine List.mem_append_right _ ?_
    rw [List.mem_filter]
    refine ⟨hp, ?_⟩
    simp [hc]

/-- Claim C1: for every action (build, lint, clear, util upver), if an external
command invocation returns a non-zero exit status, the action aborts
immediately: the performed steps are exactly the steps preceding the failing
command plus that command itself (so it is invoked exactly once and no
subsequent external command or file edit is performed), every earlier
invocation succeeded, and the failure surfaces as a non-zero script exit
status (the uncaught `CalledProcessError` exits the interpreter with 1). -/
theorem fail_fast_aborts (a : ScriptAction) (o : Oracle) (e : Int)
    (h : (execAction a o).failure = some (.cmdFailed e)) :
    e ≠ 0 ∧ scriptExit (execAction a o) = 1 ∧ scriptExit (execAction a o) ≠ 0 ∧
    ∃ pre cwd argv sh rest,
      actionSteps a = pre ++ Step.cmd cwd argv sh :: rest ∧
      (execAction a o).performed = pre ++ [Step.cmd cwd argv sh] ∧
      o (numCmds pre) = e ∧
      ∀ j, j < numCmds pre → o j = 0 := by
  obtain ⟨hne, pre, cwd, argv, sh, rest, hdec, hperf, hor, hall⟩ := runSteps_cmd_failure h
  have hexit : scriptExit (execAction a o) = 1 := by
    unfold scriptExit
    rw [h]
  refine ⟨hne, hexit, by rw [hexit]; decide, pre, cwd, argv, sh, rest, hdec, hperf,
    by simpa using hor, fun j hj => by simpa using hall j hj⟩

/-- Witness for C1: `build --simulator` on Linux with the first `cargo build`
exiting 1 performs only the config check and that single invocation. -/
theorem fail_fast_aborts_witness :
    (execAction (.build "Linux" true false false false) (fun _ => 1)).failure =
      some (.cmdFailed 1) ∧
    ((1 : Int) ≠ 0 ∧
      scriptExit (execAction (.build "Linux" true false false false) (fun _ => 1)) = 1 ∧
      scriptExit (execAction (.build "Linux" true false false false) (fun _ => 1)) ≠ 0 ∧
      ∃ pre cwd argv sh rest,
        actionSteps (.build "Linux" true false false false) =
          pre ++ Step.cmd cwd argv sh :: rest ∧
        (execAction (.build "Linux" true false false false) (fun _ => 1)).performed =
          pre ++ [Step.cmd cwd argv sh] ∧
        (fun (_ : Nat) => (1 : Int)) (numCmds pre) = 1 ∧
        ∀ j, j < numCmds pre → (fun (_ : Nat) => (1 : Int)) j = 0) :=
  ⟨by decide, fail_fast_aborts (.build "Linux" true false false false) (fun _ => 1) 1 (by decide)⟩

/-- Claim C5: under any flag combination, a successful `build` performs the
fixed flag-determined sequence: the simulator block (unity-feature `cargo
build`, copy of the simulator binary to the unity-suffixed name, plain `cargo
build`), then the SOEM block, then the TwinCAT block, then the main block
(`npm install`, the four dummy-file touches, `npm run tauri build`). -/
theorem build_trace (platform : String) (simulator soem twincat main : Bool) (o : Oracle)
    (hok : (execAction (.build platform simulator soem twincat main) o).failure = none) :
    (execAction (.build platform simulator soem twincat main) o).performed =
      [Step.configCheck platform]
      ++ (if simulator then
          [Step.cmd "simulator" ["cargo", "build", "--release", "--features", "unity"] false,
           (if platform == "Windows" then
              Step.copyFile "target/release/simulator.exe" "target/release/simulator-unity.exe"
            else
              Step.copyFile "target/release/simulator" "target/release/simulator-unity"),
           Step.cmd "simulator" ["cargo", "build", "--release"] false]
        else [])
      ++ (if soem then [Step.cmd "SOEMAUTDServer" ["cargo", "build", "--release"] false] else [])
      ++ (if twincat then
          [Step.cmd "TwinCATAUTDServerLightweight" ["cargo", "build", "--release"] false]
        else [])
      ++ (if main then
          [Step.cmd "." ["npm", "install"] (platform == "Windows"),
           Step.createDummy "target/release/simulator-unity",
           Step.createDummy "target/release/simulator",
           Step.createDummy "target/release/SOEMAUTDServer",
           Step.createDummy "target/release/TwinCATAUTDServerLightweight",
           Step.cmd "." ["npm", "run", "tauri", "build"] (platform == "Windows")]
        else []) := by
  have hperf := (runSteps_success hok).1
  exact hperf

/-- Witness for C5: with all four flags on Linux and every command succeeding,
the full twelve-step trace is performed in order. -/
theorem build_trace_witness :
    (execAction (.build "Linux" true true true true) (fun _ => 0)).failure = none ∧
    (execAction (.build "Linux" true true true true) (fun _ => 0)).performed =
      [Step.configCheck "Linux"]
      ++ [Step.cmd "simulator" ["cargo", "build", "--release", "--features", "unity"] false,
          Step.copyFile "target/release/simulator" "target/release/simulator-unity",
          Step.cmd "simulator" ["cargo", "build", "--release"] false]
      ++ [Step.cmd "SOEMAUTDServer" ["cargo", "build", "--release"] false]
      ++ [Step.cmd "TwinCATAUTDServerLightweight" ["cargo", "build", "--release"] false]
      ++ [Step.cmd "." ["npm", "install"] false,
          Step.createDummy "target/release/simulator-unity",
          Step.createDummy "target/release/simulator",
          Step.createDummy "target/release/SOEMAUTDServer",
          Step.createDummy "target/release/TwinCATAUTDServerLightweight",
          Step.cmd "." ["npm", "run", "tauri", "build"] false] :=
  ⟨by decide, by
    have := build_trace "Linux" true true true true (fun _ => 0) (by decide)
    simpa using this⟩

/-- Claim C6: on any host platform other than Windows, Darwin and Linux, the
actions that construct a `Config` (build, clear, util upver) stop at the
platform check: the script exits with the non-zero status 255 (`sys.exit(-1)`)
and no external command is invoked and no file operation is performed. -/
theorem unsupported_platform_exits (platform : String)
    (simulator soem twincat main : Bool) (tomls notices : List String)
    (o : Oracle) (a : ScriptAction)
    (hp : supportedPlatform platform = false)
    (ha : a = .build platform simulator soem twincat main ∨ a = .clear platform ∨
          a = .upver platform tomls notices) :
    scriptExit (execAction a o) = 255 ∧ scriptExit (execAction a o) ≠ 0 ∧
    ∀ s ∈ (execAction a o).performed, isCmd s = false ∧ isFileOp s = false := by
  have hrun : execAction a o = ⟨[Step.configCheck platform], some .unsupportedPlatform⟩ := by
    rcases ha with rfl | rfl | rfl
    · show runSteps o (serverBuildSteps platform simulator soem twincat main) 0 = _
      rw [show serverBuildSteps platform simulator soem twincat main =
            Step.configCheck platform ::
              ((if simulator then
                  [Step.cmd "simulator" ["cargo", "build", "--release", "--features", "unity"] false,
                   (if platform == "Windows" then
                      Step.copyFile "target/release/simulator.exe" "target/release/simulator-unity.exe"
                    else
                      Step.copyFile "target/release/simulator" "target/release/simulator-unity"),
                   Step.cmd "simulator" ["cargo", "build", "--release"] false]
                else [])
              ++ (if soem then [Step.cmd "SOEMAUTDServer" ["cargo", "build", "--release"] false] else [])
              ++ (if twincat then
                  [Step.cmd "TwinCATAUTDServerLightweight" ["cargo", "build", "--release"] false]
                else [])
              ++ (if main then
                  [Step.cmd "." ["npm", "install"] (platform == "Windows"),
                   Step.createDummy "target/release/simulator-unity",
                   Step.createDummy "target/release/simulator",
                   Step.createDummy "target/release/SOEMAUTDServer",
                   Step.createDummy "target/release/TwinCATAUTDServerLightweight",
                   Step.cmd "." ["npm", "run", "tauri", "build"] (platform == "Windows")]
                else [])) from by simp [serverBuildSteps]]
      exact runSteps_unsupported hp
    · exact runSteps_unsupported hp
    · show runSteps o (utilUpdateVerSteps platform tomls notices) 0 = _
      rw [show utilUpdateVerSteps platform tomls notices =
            Step.configCheck platform ::
              (tomls.map Step.editFile ++ notices.map Step.editFile
                ++ [Step.editFile "package.json",
                    Step.editFile "src-tauri/tauri.conf.json",
                    Step.cmd "SOEMAUTDServer" ["cargo", "update"] false,
                    Step.cmd "TwinCATAUTDServerLightweight" ["cargo", "update"] false,
                    Step.cmd "simulator" ["cargo", "update"] false,
                    Step.cmd "src-tauri" ["cargo", "update"] false,
                    Step.cmd "." ["npm", "i"] (platform == "Windows")])
            from by simp [utilUpdateVerSteps]]
      exact runSteps_unsupported hp
  rw [hrun]
  refine ⟨rfl, by show (255 : Int) ≠ 0; decide, ?_⟩
  intro s hs
  simp at hs
  subst hs
  exact ⟨rfl, rfl⟩

/-- Witness for C6: `clear` on FreeBSD exits 255 having run nothing. -/
theorem unsupported_platform_exits_witness :
    supportedPlatform "FreeBSD" = false ∧
    scriptExit (execAction (.clear "FreeBSD") (fun _ => 0)) = 255 ∧
    scriptExit (execAction (.clear "FreeBSD") (fun _ => 0)) ≠ 0 ∧
    ∀ s ∈ (execAction (.clear "FreeBSD") (fun _ => 0)).performed,
      isCmd s = false ∧ isFileOp s = false :=
  ⟨by decide,
    unsupported_platform_exits "FreeBSD" false false false false [] [] (fun _ => 0)
      (.clear "FreeBSD") (by decide) (Or.inr (Or.inl rfl))⟩

/-- Claim C9: the `working_dir` context manager always restores the current
working directory to its value on entry — both when the body completes
normally and when it raises — and passes the body's outcome through. -/
theorem working_dir_restores_cwd {σ α : Type} (path : String)
    (body : Proc σ → Outcome α × Proc σ) (s : Proc σ) :
    ((workingDir path body s).2).cwd = s.cwd ∧
    (workingDir path body s).1 = (body { s with cwd := path }).1 := by
  unfold workingDir
  rcases hb : body { s with cwd := path } with ⟨r, s2⟩
  simp [hb]

/-- Claim C10: after `create_dummy_if_not_exists` on each of the four dummy
targets of the `--main` step, the touched file exists, its parent directories
exist, a pre-existing file's content is unchanged, and on Windows the touched
path is the argument with `.exe` appended (the four names have no extension,
so `with_suffix` appends). -/
theorem create_dummy_spec (isWin : Bool) (file : String) (d : DiskState) (content : String)
    (hf : file ∈ dummyFiles) :
    ((createDummyIfNotExists isWin file d).files.lookup
        (createDummyTarget isWin file)).isSome = true ∧
    (∀ p ∈ parentDirs (createDummyTarget isWin file),
        p ∈ (createDummyIfNotExists isWin file d).dirs) ∧
    (d.files.lookup (createDummyTarget isWin file) = some content →
      (createDummyIfNotExists isWin file d).files.lookup (createDummyTarget isWin file) =
        some content) ∧
    (isWin = true → createDummyTarget isWin file = file ++ ".exe") := by
  refine ⟨?_, ?_, ?_, ?_⟩
  · exact touchFile_lookup_isSome _ _
  · intro p hp
    unfold createDummyIfNotExists
    rw [touchFile_dirs]
    exact mkdirParents_mem _ _ _ hp
  · intro hc
    unfold createDummyIfNotExists
    have hm : (mkdirParents (createDummyTarget isWin file) d).files = d.files := rfl
    have hsome : ((mkdirParents (createDummyTarget isWin file) d).files.lookup
        (createDummyTarget isWin file)).isSome = true := by
      rw [hm, hc]; rfl
    rw [touchFile_files_of_isSome _ _ hsome, hm]
    exact hc
  · intro hw
    subst hw
    fin_cases hf <;> decide

/-- Witness for C10: touching `target/release/simulator` on Windows when a
real `simulator.exe` binary is already present keeps its content. -/
theorem create_dummy_spec_witness :
    ("target/release/simulator" ∈ dummyFiles) ∧
    (((createDummyIfNotExists true "target/release/simulator"
          ⟨[], [("target/release/simulator.exe", "BIN")]⟩).files.lookup
        (createDummyTarget true "target/release/simulator")).isSome = true ∧
      (∀ p ∈ parentDirs (createDummyTarget true "target/release/simulator"),
          p ∈ (createDummyIfNotExists true "target/release/simulator"
                ⟨[], [("target/release/simulator.exe", "BIN")]⟩).dirs) ∧
      ((⟨[], [("target/release/simulator.exe", "BIN")]⟩ : DiskState).files.lookup
          (createDummyTarget true "target/release/simulator") = some "BIN" →
        (createDummyIfNotExists true "target/release/simulator"
            ⟨[], [("target/release/simulator.exe", "BIN")]⟩).files.lookup
          (createDummyTarget true "target/release/simulator") = some "BIN") ∧
      (true = true →
        createDummyTarget true "target/release/simulator" =
          "target/release/simulator" ++ ".exe")) :=
  ⟨by decide,
    create_dummy_spec true "target/release/simulator"
      ⟨[], [("target/release/simulator.exe", "BIN")]⟩ "BIN" (by decide)⟩

theorem parseArgs_ne_checkLicense (argv : List String) :
    parseArgs argv ≠ some TopAction.checkLicense := by
  intro h
  unfold parseArgs at h
  split at h <;> simp_all [Option.map_eq_some']

/-- Claim C3 counterexample: no command-line input selects a `check-license`
action — the dispatcher registers no such subparser. -/
theorem no_input_selects_check_license :
    ¬ ∃ argv : List String, parseArgs argv = some TopAction.checkLicense := by
  rintro ⟨argv, h⟩
  exact parseArgs_ne_checkLicense argv h

/-- Claim C3 (amended): the dispatcher selects exactly one of the five
registered actions build, lint, clear, util upver, help; there is no
check-license action. -/
theorem parse_selects_one_of_five (argv : List String) (a : TopAction)
    (h : parseArgs argv = some a) :
    (∃ s so tw mn, a = TopAction.build s so tw mn) ∨
    (∃ s so tw mn, a = TopAction.lint s so tw mn) ∨
    a = TopAction.clear ∨
    (∃ ver, a = TopAction.utilUpver ver) ∨
    (∃ c, a = TopAction.helpCmd c) := by
  unfold parseArgs at h
  split at h
  · obtain ⟨f, -, rfl⟩ := Option.map_eq_some'.mp h
    exact Or.inl ⟨f.1, f.2.1, f.2.2.1, f.2.2.2, rfl⟩
  · obtain ⟨f, -, rfl⟩ := Option.map_eq_some'.mp h
    exact Or.inr (Or.inl ⟨f.1, f.2.1, f.2.2.1, f.2.2.2, rfl⟩)
  · obtain rfl : TopAction.clear = a := by simpa using h
    exact Or.inr (Or.inr (Or.inl rfl))
  · rename_i version
    obtain rfl : TopAction.utilUpver version = a := by simpa using h
    exact Or.inr (Or.inr (Or.inr (Or.inl ⟨version, rfl⟩)))
  · rename_i command
    obtain rfl : TopAction.helpCmd command = a := by simpa using h
    exact Or.inr (Or.inr (Or.inr (Or.inr ⟨command, rfl⟩)))
  · exact absurd h (by simp)

/-- Witness for the amended C3: `clear` parses to the clear action, which is
one of the five. -/
theorem parse_selects_one_of_five_witness :
    parseArgs ["clear"] = some TopAction.clear ∧
    ((∃ s so tw mn, TopAction.clear = TopAction.build s so tw mn) ∨
     (∃ s so tw mn, TopAction.clear = TopAction.lint s so tw mn) ∨
     TopAction.clear = TopAction.clear ∨
     (∃ ver, TopAction.clear = TopAction.utilUpver ver) ∨
     (∃ c, TopAction.clear = TopAction.helpCmd c)) :=
  ⟨by decide, parse_selects_one_of_five ["clear"] TopAction.clear (by decide)⟩

/-- Claim C7 counterexample: two runs on the same platform with identical
environment mappings but different on-disk state compute different `shaderc`
flags — the configuration flags are not derived from the host OS and the
environment variables alone. -/
theorem shaderc_depends_on_disk :
    (Host.mk "Linux" (fun _ => none) (fun _ => false) (fun _ => none)).platform =
      (Host.mk "Linux" (fun _ => none)
        (fun p => p == "/usr/local/lib/libshaderc_combined.a") (fun _ => none)).platform ∧
    (Host.mk "Linux" (fun _ => none) (fun _ => false) (fun _ => none)).env =
      (Host.mk "Linux" (fun _ => none)
        (fun p => p == "/usr/local/lib/libshaderc_combined.a") (fun _ => none)).env ∧
    mkConfig (Host.mk "Linux" (fun _ => none) (fun _ => false) (fun _ => none)) =
      some ⟨"Linux", false⟩ ∧
    mkConfig (Host.mk "Linux" (fun _ => none)
        (fun p => p == "/usr/local/lib/libshaderc_combined.a") (fun _ => none)) =
      some ⟨"Linux", true⟩ :=
  ⟨rfl, rfl, by decide, by decide⟩

/-- Claim C7 (amended): the `shaderc` flag is a deterministic function of the
host platform, the environment variables `SHADERC_LIB_DIR` and `VULKAN_SDK`,
the presence on disk of the shaderc library file at the three probed
locations, and the `which` lookups of git, cmake, python3 and ninja: two runs
agreeing on those inputs compute equal configurations — however the rest of
the disk differs (the filesystem and PATH state genuinely enter, unlike the
original claim). -/
theorem shaderc_determined_by_probes (h h' : Host)
    (hp : h.platform = h'.platform)
    (he1 : h.env "SHADERC_LIB_DIR" = h'.env "SHADERC_LIB_DIR")
    (he2 : h.env "VULKAN_SDK" = h'.env "VULKAN_SDK")
    (hf1 : h.isFile ((h.env "SHADERC_LIB_DIR").getD "" ++ "/" ++
        (if hostIsWindows h then "shaderc_combined.lib" else "libshaderc_combined.a")) =
      h'.isFile ((h'.env "SHADERC_LIB_DIR").getD "" ++ "/" ++
        (if hostIsWindows h' then "shaderc_combined.lib" else "libshaderc_combined.a")))
    (hf2 : h.isFile ((h.env "VULKAN_SDK").getD "" ++ "/lib/" ++
        (if hostIsWindows h then "shaderc_combined.lib" else "libshaderc_combined.a")) =
      h'.isFile ((h'.env "VULKAN_SDK").getD "" ++ "/lib/" ++
        (if hostIsWindows h' then "shaderc_combined.lib" else "libshaderc_combined.a")))
    (hf3 : h.isFile ("/usr/local/lib/" ++
        (if hostIsWindows h then "shaderc_combined.lib" else "libshaderc_combined.a")) =
      h'.isFile ("/usr/local/lib/" ++
        (if hostIsWindows h' then "shaderc_combined.lib" else "libshaderc_combined.a")))
    (hw1 : h.which "git" = h'.which "git")
    (hw2 : h.which "cmake" = h'.which "cmake")
    (hw3 : h.which "python3" = h'.which "python3")
    (hw4 : h.which "ninja" = h'.which "ninja") :
    mkConfig h = mkConfig h' := by
  have hwin : hostIsWindows h = hostIsWindows h' := by
    unfold hostIsWindows
    rw [hp]
  rw [hwin, he1] at hf1
  rw [hwin, he2] at hf2
  rw [hwin] at hf3
  simp only [mkConfig, isShadercAvailable, envExists, supportedPlatform]
  simp only [hp, hwin, he1, he2, hf1, hf2, hf3, hw1, hw2, hw3, hw4]

/-- Witness for the amended C7: two hosts whose environments differ in an
unread key and whose disks differ away from the probed shaderc locations
yield the same configuration. -/
theorem shaderc_determined_by_probes_witness :
    mkConfig (Host.mk "Linux" (fun k => if k = "UNRELATED" then some "1" else none)
        (fun _ => false) (fun _ => none)) =
      mkConfig (Host.mk "Linux" (fun _ => none)
        (fun p => p == "/some/other/file") (fun _ => none)) :=
  shaderc_determined_by_probes
    (Host.mk "Linux" (fun k => if k = "UNRELATED" then some "1" else none)
      (fun _ => false) (fun _ => none))
    (Host.mk "Linux" (fun _ => none) (fun p => p == "/some/other/file") (fun _ => none))
    rfl (by decide) (by decide) (by decide) (by decide) (by decide) rfl rfl rfl rfl

theorem map_fst_condMap (f : List Line → List Line) (Q : RPath → Bool) (fs : FileTree) :
    (fs.map fun e => if Q e.1 then (e.1, f e.2) else e).map Prod.fst = fs.map Prod.fst := by
  rw [List.map_map]
  refine List.map_congr_left ?_
  intro e _
  obtain ⟨p, c⟩ := e
  by_cases hq : Q p <;> simp [hq]

theorem map_fst_editTree (path : RPath) (f : List Line → List Line) (fs : FileTree) :
    (editTree path f fs).map Prod.fst = fs.map Prod.fst := by
  unfold editTree
  rw [List.map_map]
  refine List.map_congr_left ?_
  intro e _
  obtain ⟨p, c⟩ := e
  by_cases hq : p = path <;> simp [hq]

theorem upverPhase_map_fst (v : Line) (fs : FileTree) :
    (upverPhase v fs).map Prod.fst = fs.map Prod.fst := by
  unfold upverPhase
  rw [map_fst_editTree, map_fst_editTree, map_fst_condMap, map_fst_condMap]

theorem condMap_mem {fs : FileTree} {p : RPath} {c : List Line}
    (Q : RPath → Bool) (f : List Line → List Line) (hmem : (p, c) ∈ fs)
    (hq : Q p = false) :
    (p, c) ∈ fs.map fun e => if Q e.1 then (e.1, f e.2) else e := by
  have := List.mem_map_of_mem (fun e => if Q e.1 then (e.1, f e.2) else e) hmem
  simpa [hq] using this

theorem editTree_mem {fs : FileTree} {p : RPath} {c : List Line}
    (path : RPath) (f : List Line → List Line) (hmem : (p, c) ∈ fs)
    (hq : p ≠ path) :
    (p, c) ∈ editTree path f fs := by
  have := List.mem_map_of_mem (fun e => if e.1 = path then (e.1, f e.2) else e) hmem
  simpa [editTree, hq] using this

/-- Claim C4: the text-substitution phase of `util upver` rewrites files only
in place: the path list of the tree is unchanged (no file is created or
deleted), and every file that is not a glob-matched `Cargo.toml` or
`ThirdPartyNotice.txt` and is neither `package.json` nor
`src-tauri/tauri.conf.json` keeps its exact content. -/
theorem upver_subst_frame (v : Line) (fs : FileTree) (p : RPath) (c : List Line)
    (hmem : (p, c) ∈ fs)
    (h1 : isCargoTomlPath p = false) (h2 : isNoticePath p = false)
    (h3 : p ≠ pkgJsonPath) (h4 : p ≠ tauriConfPath) :
    (upverPhase v fs).map Prod.fst = fs.map Prod.fst ∧ (p, c) ∈ upverPhase v fs := by
  refine ⟨upverPhase_map_fst v fs, ?_⟩
  have m1 := condMap_mem isCargoTomlPath (cargoToml v) hmem h1
  have m2 := condMap_mem isNoticePath (noticeTxt v) m1 h2
  have m3 := editTree_mem pkgJsonPath (packageJson v) m2 h3
  exact editTree_mem tauriConfPath (tauriConf v) m3 h4

/-- Witness for C4: a `README.md` at the repository root survives the phase
untouched, and the path list is preserved. -/
theorem upver_subst_frame_witness :
    ((["README.md"], ['h', 'i'] :: []) ∈
        ([((["README.md"] : RPath), ['h', 'i'] :: [])] : FileTree)) ∧
    ((upverPhase ['9'] [((["README.md"] : RPath), ['h', 'i'] :: [])]).map Prod.fst =
        ([((["README.md"] : RPath), ['h', 'i'] :: [])] : FileTree).map Prod.fst ∧
      (["README.md"], ['h', 'i'] :: []) ∈
        upverPhase ['9'] [((["README.md"] : RPath), ['h', 'i'] :: [])]) :=
  ⟨by decide,
    upver_subst_frame ['9'] [((["README.md"] : RPath), ['h', 'i'] :: [])]
      ["README.md"] (['h', 'i'] :: []) (by decide) (by decide) (by decide)
      (by decide) (by decide)⟩

theorem stripPre_autd3_versionEq (x : Line) :
    stripPre litAutd3 (litVersionEq ++ x) = none := rfl

theorem stripPre_versionEq_autd3 (x : Line) :
    stripPre litVersionEq (litAutd3 ++ x) = none := rfl

theorem cargoSub1_nomatch {v line : Line} (h : matchesCargo1 line = false) :
    cargoSub1 v line = line := by
  unfold matchesCargo1 at h
  cases hs : stripPre litVersionEq line with
  | none => simp [cargoSub1, hs]
  | some r =>
    rw [hs] at h
    simp at h
    cases hb : breakAtChar '"' r with
    | none => simp [cargoSub1, hs, hb]
    | some q => rw [hb] at h; simp at h

theorem cargoSub2_nomatch {v line : Line} (h : matchesCargo2 line = false) :
    cargoSub2 v line = line := by
  unfold matchesCargo2 at h
  cases hs : stripPre litAutd3 line with
  | none => simp [cargoSub2, hs]
  | some r =>
    rw [hs] at h
    simp at h
    cases hb : splitLastLitThenQuote litVersionEq r with
    | none => simp [cargoSub2, hs, hb]
    | some q => rw [hb] at h; simp at h

theorem stripPre_versionEq_sub1out (v tail : Line) :
    stripPre litVersionEq (litVersionEq ++ (v ++ '"' :: tail)) = some (v ++ '"' :: tail) :=
  stripPre_append litVersionEq (v ++ '"' :: tail)

theorem matchesCargo1_sub1out {v : Line} (tail : Line) (hq : '"' ∉ v) :
    matchesCargo1 (litVersionEq ++ v ++ '"' :: tail) = true := by
  simp [matchesCargo1, stripPre_versionEq_sub1out, breakAtChar_append tail hq]

theorem quotedValue_sub1out {v : Line} (tail : Line) (hq : '"' ∉ v) :
    quotedValue (litVersionEq ++ v ++ '"' :: tail) = some v := by
  simp [quotedValue, stripPre_versionEq_sub1out, breakAtChar_append tail hq]

theorem cargoSub2_skips_sub1out (v tail : Line) :
    cargoSub2 v (litVersionEq ++ v ++ '"' :: tail) = litVersionEq ++ v ++ '"' :: tail := by
  have hsa : stripPre litAutd3 (litVersionEq ++ (v ++ '"' :: tail)) = none :=
    stripPre_autd3_versionEq _
  simp only [cargoSub2, List.append_assoc]
  rw [hsa]

theorem matchesCargo1_sub2out (v g1 tail : Line) :
    matchesCargo1 (litAutd3 ++ g1 ++ litVersionEq ++ v ++ '"' :: tail) = false := by
  have hsv : stripPre litVersionEq
      (litAutd3 ++ (g1 ++ (litVersionEq ++ (v ++ '"' :: tail)))) = none :=
    stripPre_versionEq_autd3 _
  simp only [matchesCargo1, List.append_assoc]
  rw [hsv]


/-- Claim C2 (amended): for a version string without quote, backslash or
newline characters (backslash and newline only because `re.sub` escape
processing and line structure make the per-line embedding exact), after the
`Cargo.toml` substitution every line of the form `version = "..."` has exactly
the supplied version as its quoted value, and every line matched by neither
version pattern is unchanged at its position. -/
theorem cargo_version_set (v : Line) (hq : '"' ∉ v) (_hbs : '\\' ∉ v)
    (_hnl : '\n' ∉ v) (content : List Line) :
    (∀ line ∈ cargoToml v content, matchesCargo1 line = true → quotedValue line = some v) ∧
    (∀ i : Nat, ∀ line, content[i]? = some line → matchesCargo1 line = false →
      matchesCargo2 line = false → (cargoToml v content)[i]? = some line) := by
  constructor
  · intro line' hline' hm
    obtain ⟨line, -, rfl⟩ := List.mem_map.mp hline'
    by_cases h1 : matchesCargo1 line = true
    · unfold matchesCargo1 at h1
      cases hs : stripPre litVersionEq line with
      | none => rw [hs] at h1; simp at h1
      | some r =>
        rw [hs] at h1
        simp at h1
        cases hb : breakAtChar '"' r with
        | none => rw [hb] at h1; simp at h1
        | some q =>
          obtain ⟨a, tail⟩ := q
          have e1 : cargoSub1 v line = litVersionEq ++ v ++ '"' :: tail := by
            simp [cargoSub1, hs, hb]
          show quotedValue (cargoSub2 v (cargoSub1 v line)) = some v
          rw [e1, cargoSub2_skips_sub1out]
          exact quotedValue_sub1out tail hq
    · have hb1 : matchesCargo1 line = false := by simpa using h1
      have e1 : cargoSub1 v line = line := cargoSub1_nomatch hb1
      by_cases h2 : matchesCargo2 line = true
      · exfalso
        unfold matchesCargo2 at h2
        cases hs : stripPre litAutd3 line with
        | none => rw [hs] at h2; simp at h2
        | some r =>
          rw [hs] at h2
          simp at h2
          cases hb : splitLastLitThenQuote litVersionEq r with
          | none => rw [hb] at h2; simp at h2
          | some q =>
            obtain ⟨g1, a, tail⟩ := q
            have e2 : cargoSub2 v line =
                litAutd3 ++ g1 ++ litVersionEq ++ v ++ '"' :: tail := by
              simp [cargoSub2, hs, hb]
            have hm' : matchesCargo1 (cargoLine v line) = false := by
              unfold cargoLine
              rw [e1, e2]
              exact matchesCargo1_sub2out v g1 tail
            rw [hm'] at hm
            simp at hm
      · have hb2 : matchesCargo2 line = false := by simpa using h2
        have hid : cargoLine v line = line := by
          unfold cargoLine
          rw [e1, cargoSub2_nomatch hb2]
        rw [hid] at hm
        rw [hm] at hb1
        simp at hb1
  · intro i line hi hm1 hm2
    unfold cargoToml
    rw [List.getElem?_map, hi]
    simp only [Option.map_some']
    rw [show cargoLine v line = line from by
      unfold cargoLine
      rw [cargoSub1_nomatch hm1, cargoSub2_nomatch hm2]]

/-- Witness for the amended C2: the space-containing version `a b` rewrites
`version = "1.0"` to `version = "a b"`, whose quoted value is `a b`, and
leaves a dependency line without version field unchanged. -/
theorem cargo_version_set_witness :
    ('"' ∉ ('a' :: ' ' :: ['b'] : Line) ∧ '\\' ∉ ('a' :: ' ' :: ['b'] : Line) ∧
      '\n' ∉ ('a' :: ' ' :: ['b'] : Line)) ∧
    ((∀ line ∈ cargoToml ('a' :: ' ' :: ['b'])
          ["version = \"1.0\"".toList, "[package]".toList],
        matchesCargo1 line = true → quotedValue line = some ('a' :: ' ' :: ['b'])) ∧
      (∀ i : Nat, ∀ line,
        (["version = \"1.0\"".toList, "[package]".toList] : List Line)[i]? = some line →
        matchesCargo1 line = false → matchesCargo2 line = false →
        (cargoToml ('a' :: ' ' :: ['b'])
          ["version = \"1.0\"".toList, "[package]".toList])[i]? =
          some line)) :=
  ⟨⟨by decide, by decide, by decide⟩,
    cargo_version_set ('a' :: ' ' :: ['b']) (by decide) (by decide) (by decide)
      ["version = \"1.0\"".toList, "[package]".toList]⟩

/-- Claim C2 counterexample: with the version string `a"b` (which contains a
quote), the rewritten line still has the `version = "..."` shape but its
quoted value is `a`, not the supplied version string. -/
theorem cargo_version_set_counterexample :
    (cargoToml ('a' :: '"' :: ['b']) ["version = \"1\"".toList])[0]? =
      some "version = \"a\"b\"".toList ∧
    matchesCargo1 "version = \"a\"b\"".toList = true ∧
    quotedValue "version = \"a\"b\"".toList = some ['a'] ∧
    some (['a'] : Line) ≠ some ('a' :: '"' :: ['b']) := by
  refine ⟨by decide, by decide, by decide, by decide⟩

theorem get_append_left {A B : Line} {i : Nat} (h : i < A.length) :
    (A ++ B)[i]? = A[i]? := by
  simp [List.getElem?_append, h]

theorem get_append_right {A B : Line} {i : Nat} (h : A.length ≤ i) :
    (A ++ B)[i]? = B[i - A.length]? :=
  List.getElem?_append_right h

theorem mem_of_get {l : Line} {i : Nat} {c : Char} (h : l[i]? = some c) : c ∈ l := by
  obtain ⟨hw, rfl⟩ := List.getElem?_eq_some.mp h
  exact List.getElem_mem hw

theorem lt_of_get {l : Line} {i : Nat} {c : Char} (h : l[i]? = some c) : i < l.length :=
  (List.getElem?_eq_some.mp h).1

theorem get_at_append_cons (A : Line) (c : Char) (B : Line) :
    (A ++ c :: B)[A.length]? = some c := by
  rw [get_append_right (Nat.le_refl _)]
  simp

theorem decomp_get {l g lit r : Line} (h : l = g ++ lit ++ r) {k : Nat}
    (hk : k < lit.length) : l[g.length + k]? = lit[k]? := by
  subst h
  rw [List.append_assoc, get_append_right (by omega)]
  have harith : g.length + k - g.length = k := by omega
  rw [harith, get_append_left hk]

theorem decomp_len {l g lit r : Line} (h : l = g ++ lit ++ r) :
    l.length = g.length + lit.length + r.length := by
  subst h; simp; omega

theorem occ_of_charwise {lit l : Line} {p : Nat} (hlen : p + lit.length ≤ l.length)
    (hch : ∀ k, k < lit.length → l[p + k]? = lit[k]?) :
    l = l.take p ++ lit ++ l.drop (p + lit.length) := by
  apply List.ext_getElem?
  intro i
  have htk : (l.take p).length = p := by
    rw [List.length_take]
    omega
  by_cases h1 : i < p
  · rw [List.append_assoc, get_append_left (by omega)]
    simp [List.getElem?_take, h1]
  · by_cases h2 : i < p + lit.length
    · rw [List.append_assoc, get_append_right (by omega), htk]
      rw [get_append_left (by omega)]
      have := hch (i - p) (by omega)
      have harith : p + (i - p) = i := by omega
      rw [harith] at this
      exact this
    · rw [List.append_assoc, get_append_right (by omega), htk]
      rw [get_append_right (by omega)]
      rw [List.getElem?_drop]
      congr 1
      omega

theorem occ_suffix {A B g' X : Line} (h : A ++ B = g' ++ X) (hlen : A.length ≤ g'.length) :
    ∃ g'', g' = A ++ g'' ∧ B = g'' ++ X := by
  rw [List.append_eq_append_iff] at h
  rcases h with ⟨a', ha1, ha2⟩ | ⟨c', hc1, hc2⟩
  · exact ⟨a', ha1, ha2⟩
  · have hl := congrArg List.length hc1
    simp at hl
    have hz : c' = [] := List.eq_nil_of_length_eq_zero (by omega)
    subst hz
    refine ⟨[], ?_, ?_⟩
    · simp at hc1 ⊢
      exact hc1.symm
    · simpa using hc2.symm

theorem get_shared {A B C : Line} {i : Nat} (h : i < A.length) :
    (A ++ B)[i]? = (A ++ C)[i]? := by
  rw [get_append_left h, get_append_left h]

theorem cargoSub2_stable {v g1 a t r : Line} (hq : '"' ∉ v) (hsp : ' ' ∉ v)
    (horig : splitLastLitThenQuote litVersionEq r = some (g1, a, t)) :
    splitLastLitThenQuote litVersionEq (g1 ++ litVersionEq ++ v ++ '"' :: t) =
      some (g1, v, t) := by
  refine splitLastLitThenQuote_eq rfl hq ?_
  intro g' r' hdec hqr
  by_contra hgt
  push_neg at hgt
  have hlit : litVersionEq.length = 11 := by decide
  have hocc : ∀ k, k < 11 → (g1 ++ litVersionEq ++ v ++ '"' :: t)[g'.length + k]? =
      litVersionEq[k]? := by
    intro k hk
    exact decomp_get hdec (by omega)
  have hreg1 : ∀ j, j < 11 → (g1 ++ litVersionEq ++ v ++ '"' :: t)[g1.length + j]? =
      litVersionEq[j]? := by
    intro j hj
    exact decomp_get (show g1 ++ litVersionEq ++ v ++ '"' :: t =
      g1 ++ litVersionEq ++ (v ++ '"' :: t) by simp) (by omega)
  have hreg2 : ∀ j, j < v.length →
      (g1 ++ litVersionEq ++ v ++ '"' :: t)[g1.length + 11 + j]? = v[j]? := by
    intro j hj
    have hdec2 : g1 ++ litVersionEq ++ v ++ '"' :: t =
        (g1 ++ litVersionEq) ++ v ++ ('"' :: t) := by simp
    have := decomp_get hdec2 hj
    rw [show (g1 ++ litVersionEq).length = g1.length + 11 by simp [hlit]] at this
    exact this
  have hreg3 : (g1 ++ litVersionEq ++ v ++ '"' :: t)[g1.length + 11 + v.length]? =
      some '"' := by
    have hget := get_at_append_cons (g1 ++ litVersionEq ++ v) '"' t
    rw [show (g1 ++ litVersionEq ++ v).length = g1.length + 11 + v.length by
      simp [hlit]; omega] at hget
    exact hget
  by_cases hA : g'.length < g1.length + 11
  · have h1 : (g1 ++ litVersionEq ++ v ++ '"' :: t)[g'.length]? = litVersionEq[0]? := by
      have := hocc 0 (by omega)
      simpa using this
    have h2 : (g1 ++ litVersionEq ++ v ++ '"' :: t)[g'.length]? =
        litVersionEq[g'.length - g1.length]? := by
      have := hreg1 (g'.length - g1.length) (by omega)
      rw [show g1.length + (g'.length - g1.length) = g'.length by omega] at this
      exact this
    have heq0 : litVersionEq[g'.length - g1.length]? = litVersionEq[0]? := by
      rw [← h2, h1]
    have hcontr : ∀ j, j < 11 → 1 ≤ j → litVersionEq[j]? ≠ litVersionEq[0]? := by decide
    exact hcontr (g'.length - g1.length) (by omega) (by omega) heq0
  · by_cases hB : g'.length < g1.length + 11 + v.length
    · by_cases hB1 : g'.length + 10 < g1.length + 11 + v.length
      · have h1 : (g1 ++ litVersionEq ++ v ++ '"' :: t)[g'.length + 10]? =
            litVersionEq[10]? := hocc 10 (by omega)
        have h2 : (g1 ++ litVersionEq ++ v ++ '"' :: t)[g'.length + 10]? =
            v[g'.length + 10 - (g1.length + 11)]? := by
          have := hreg2 (g'.length + 10 - (g1.length + 11)) (by omega)
          rw [show g1.length + 11 + (g'.length + 10 - (g1.length + 11)) =
            g'.length + 10 by omega] at this
          exact this
        have hv : v[g'.length + 10 - (g1.length + 11)]? = some '"' := by
          rw [← h2, h1]
          decide
        exact hq (mem_of_get hv)
      · by_cases hB2 : g'.length + 10 = g1.length + 11 + v.length
        · have h1 : (g1 ++ litVersionEq ++ v ++ '"' :: t)[g'.length + 7]? =
              litVersionEq[7]? := hocc 7 (by omega)
          have h2 : (g1 ++ litVersionEq ++ v ++ '"' :: t)[g'.length + 7]? =
              v[g'.length + 7 - (g1.length + 11)]? := by
            have := hreg2 (g'.length + 7 - (g1.length + 11)) (by omega)
            rw [show g1.length + 11 + (g'.length + 7 - (g1.length + 11)) =
              g'.length + 7 by omega] at this
            exact this
          have hv : v[g'.length + 7 - (g1.length + 11)]? = some ' ' := by
            rw [← h2, h1]
            decide
          exact hsp (mem_of_get hv)
        · have hk : g1.length + 11 + v.length - g'.length < 10 ∧
              1 ≤ g1.length + 11 + v.length - g'.length := by omega
          have h1 := hocc (g1.length + 11 + v.length - g'.length) (by omega)
          rw [show g'.length + (g1.length + 11 + v.length - g'.length) =
            g1.length + 11 + v.length by omega] at h1
          have heq0 : litVersionEq[g1.length + 11 + v.length - g'.length]? =
              some '"' := by
            rw [← h1, hreg3]
          have hcontr : ∀ j, j < 10 → litVersionEq[j]? ≠ some '"' := by decide
          exact hcontr _ hk.1 heq0
    · by_cases hC : g'.length = g1.length + 11 + v.length
      · have h1 : (g1 ++ litVersionEq ++ v ++ '"' :: t)[g'.length]? =
            litVersionEq[0]? := by
          have := hocc 0 (by omega)
          simpa using this
        rw [hC, hreg3] at h1
        have : litVersionEq[0]? ≠ some '"' := by decide
        exact this h1.symm
      · have hsplit : (g1 ++ litVersionEq ++ v ++ ['"']) ++ t =
            g' ++ (litVersionEq ++ r') := by
          have hL : (g1 ++ litVersionEq ++ v ++ ['"']) ++ t =
              g1 ++ litVersionEq ++ v ++ '"' :: t := by simp
          rw [hL, hdec]
          simp
        have hAlen : (g1 ++ litVersionEq ++ v ++ ['"']).length ≤ g'.length := by
          simp [hlit]
          omega
        obtain ⟨g'', hg1, hg2⟩ := occ_suffix hsplit hAlen
        have horig_dec := (splitLastLitThenQuote_sound horig).1
        have hrdec : r = (g1 ++ litVersionEq ++ a ++ '"' :: g'') ++ litVersionEq ++ r' := by
          rw [horig_dec, hg2]
          simp
        have hmax := splitLastLitThenQuote_max horig _ _ hrdec hqr
        simp [List.length_append, hlit] at hmax

theorem cargoSub1_sub1out {v : Line} (tail : Line) (hq : '"' ∉ v) :
    cargoSub1 v (litVersionEq ++ v ++ '"' :: tail) = litVersionEq ++ v ++ '"' :: tail := by
  simp [cargoSub1, List.append_assoc, stripPre_versionEq_sub1out, breakAtChar_append tail hq]

theorem cargoLine_idem {v line : Line} (hq : '"' ∉ v) (hsp : ' ' ∉ v) :
    cargoLine v (cargoLine v line) = cargoLine v line := by
  by_cases h1 : matchesCargo1 line = true
  · unfold matchesCargo1 at h1
    cases hs : stripPre litVersionEq line with
    | none => rw [hs] at h1; simp at h1
    | some r0 =>
      rw [hs] at h1
      simp at h1
      cases hb : breakAtChar '"' r0 with
      | none => rw [hb] at h1; simp at h1
      | some q =>
        obtain ⟨a, tail⟩ := q
        have e1 : cargoSub1 v line = litVersionEq ++ v ++ '"' :: tail := by
          simp [cargoSub1, hs, hb]
        have hout : cargoLine v line = litVersionEq ++ v ++ '"' :: tail := by
          unfold cargoLine
          rw [e1, cargoSub2_skips_sub1out]
        rw [hout]
        show cargoSub2 v (cargoSub1 v (litVersionEq ++ v ++ '"' :: tail)) =
          litVersionEq ++ v ++ '"' :: tail
        rw [cargoSub1_sub1out tail hq, cargoSub2_skips_sub1out]
  · have hb1 : matchesCargo1 line = false := by simpa using h1
    have e1 : cargoSub1 v line = line := cargoSub1_nomatch hb1
    by_cases h2 : matchesCargo2 line = true
    · unfold matchesCargo2 at h2
      cases hs : stripPre litAutd3 line with
      | none => rw [hs] at h2; simp at h2
      | some r =>
        rw [hs] at h2
        simp at h2
        cases hbq : splitLastLitThenQuote litVersionEq r with
        | none => rw [hbq] at h2; simp at h2
        | some q =>
          obtain ⟨g1, a, t⟩ := q
          have e2 : cargoSub2 v line = litAutd3 ++ g1 ++ litVersionEq ++ v ++ '"' :: t := by
            simp [cargoSub2, hs, hbq]
          have hout : cargoLine v line = litAutd3 ++ g1 ++ litVersionEq ++ v ++ '"' :: t := by
            unfold cargoLine
            rw [e1, e2]
          rw [hout]
          show cargoSub2 v (cargoSub1 v (litAutd3 ++ g1 ++ litVersionEq ++ v ++ '"' :: t)) =
            litAutd3 ++ g1 ++ litVersionEq ++ v ++ '"' :: t
          rw [cargoSub1_nomatch (matchesCargo1_sub2out v g1 t)]
          have hstrip : stripPre litAutd3
              (litAutd3 ++ (g1 ++ (litVersionEq ++ (v ++ '"' :: t)))) =
              some (g1 ++ (litVersionEq ++ (v ++ '"' :: t))) :=
            stripPre_append litAutd3 (g1 ++ (litVersionEq ++ (v ++ '"' :: t)))
          have hstable : splitLastLitThenQuote litVersionEq
              (g1 ++ (litVersionEq ++ (v ++ '"' :: t))) = some (g1, v, t) := by
            have := cargoSub2_stable hq hsp hbq
            simpa using this
          simp [cargoSub2, hstrip, hstable]
    · have hb2 : matchesCargo2 line = false := by simpa using h2
      have hout : cargoLine v line = line := by
        unfold cargoLine
        rw [e1, cargoSub2_nomatch hb2]
      rw [hout]
      exact hout

theorem cargoToml_idem {v : Line} (hq : '"' ∉ v) (hsp : ' ' ∉ v) (content : List Line) :
    cargoToml v (cargoToml v content) = cargoToml v content := by
  unfold cargoToml
  rw [List.map_map]
  exact List.map_congr_left fun line _ => cargoLine_idem hq hsp

theorem firstLit_lastQuote_stable {lit ln pre r x v : Line}
    (hfirst : splitFirstLit lit ln = some (pre, r)) :
    splitFirstLit lit (pre ++ lit ++ (v ++ '"' :: x)) = some (pre, v ++ '"' :: x) := by
  refine splitFirstLit_eq rfl ?_
  intro p' r' hdec
  by_contra hlt
  push_neg at hlt
  have hlsound := splitFirstLit_sound hfirst
  have hch : ∀ k, k < lit.length → ln[p'.length + k]? = lit[k]? := by
    intro k hk
    have h1 : (pre ++ lit ++ (v ++ '"' :: x))[p'.length + k]? = lit[k]? :=
      decomp_get hdec hk
    have hpos : p'.length + k < (pre ++ lit).length := by
      simp
      omega
    rw [hlsound]
    rw [show pre ++ lit ++ r = (pre ++ lit) ++ r from by simp]
    rw [get_shared hpos]
    rw [show (pre ++ lit) ++ (v ++ '"' :: x) = pre ++ lit ++ (v ++ '"' :: x) from by
      simp]
    exact h1
  have hplen : p'.length + lit.length ≤ ln.length := by
    have := decomp_len hlsound
    omega
  have hocc := occ_of_charwise hplen hch
  have hmin := splitFirstLit_min hfirst _ _ hocc
  rw [List.length_take] at hmin
  omega

theorem jsonVersionSub_idem {v line : Line} :
    jsonVersionSub v (jsonVersionSub v line) = jsonVersionSub v line := by
  cases hf : splitFirstLit litVersionJson line with
  | none =>
    have e : jsonVersionSub v line = line := by simp [jsonVersionSub, hf]
    rw [e]
    exact e
  | some q =>
    obtain ⟨pre, r⟩ := q
    cases hl : splitLastLit ['"'] r with
    | none =>
      have e : jsonVersionSub v line = line := by simp [jsonVersionSub, hf, hl]
      rw [e]
      exact e
    | some q2 =>
      obtain ⟨a, tail⟩ := q2
      have e : jsonVersionSub v line = pre ++ litVersionJson ++ v ++ '"' :: tail := by
        simp [jsonVersionSub, hf, hl]
      rw [e]
      have hs1 : splitFirstLit litVersionJson
          (pre ++ (litVersionJson ++ (v ++ '"' :: tail))) =
          some (pre, v ++ '"' :: tail) := by
        have := @firstLit_lastQuote_stable litVersionJson line pre r tail v hf
        simpa using this
      have hs2 : splitLastLit ['"'] (v ++ '"' :: tail) = some (v, tail) := by
        have h0 := @splitLastLit_single_eq '"' v tail (splitLastLit_single_not_mem hl)
        simpa using h0
      simp [jsonVersionSub, hs1, hs2]

theorem packageJson_idem (v : Line) (content : List Line) :
    packageJson v (packageJson v content) = packageJson v content := by
  unfold packageJson
  rw [List.map_map]
  exact List.map_congr_left fun line _ => jsonVersionSub_idem

theorem out2_quote_pos {pre2 v tail2 : Line} (hq : '"' ∉ v) (ht : '"' ∉ tail2) :
    ∀ i, (pre2 ++ litTitleTauri ++ v ++ '"' :: tail2)[i]? = some '"' →
      i < pre2.length ∨ i = pre2.length ∨ i = pre2.length + 6 ∨ i = pre2.length + 9 ∨
      i = pre2.length + 24 + v.length := by
  intro i hi
  have hlenT : litTitleTauri.length = 24 := by decide
  by_cases h1 : i < pre2.length
  · exact Or.inl h1
  · by_cases h2 : i < pre2.length + 24
    · have hT : (pre2 ++ litTitleTauri ++ v ++ '"' :: tail2)[i]? =
          litTitleTauri[i - pre2.length]? := by
        have hg := decomp_get (show pre2 ++ litTitleTauri ++ v ++ '"' :: tail2 =
          pre2 ++ litTitleTauri ++ (v ++ '"' :: tail2) by simp)
          (show i - pre2.length < litTitleTauri.length by omega)
        rw [show pre2.length + (i - pre2.length) = i by omega] at hg
        exact hg
      rw [hT] at hi
      have hdq : ∀ j, j < 24 → litTitleTauri[j]? = some '"' → j = 0 ∨ j = 6 ∨ j = 9 := by
        decide
      rcases hdq (i - pre2.length) (by omega) hi with h | h | h
      · exact Or.inr (Or.inl (by omega))
      · exact Or.inr (Or.inr (Or.inl (by omega)))
      · exact Or.inr (Or.inr (Or.inr (Or.inl (by omega))))
    · by_cases h3 : i < pre2.length + 24 + v.length
      · exfalso
        have hv : (pre2 ++ litTitleTauri ++ v ++ '"' :: tail2)[i]? = v[i - (pre2.length + 24)]? := by
          have hg := decomp_get (show pre2 ++ litTitleTauri ++ v ++ '"' :: tail2 =
            (pre2 ++ litTitleTauri) ++ v ++ ('"' :: tail2) by simp)
            (show i - (pre2.length + 24) < v.length by omega)
          rw [show (pre2 ++ litTitleTauri).length = pre2.length + 24 by simp [hlenT]] at hg
          rw [show pre2.length + 24 + (i - (pre2.length + 24)) = i by omega] at hg
          exact hg
        rw [hv] at hi
        exact hq (mem_of_get hi)
      · by_cases h4 : i = pre2.length + 24 + v.length
        · exact Or.inr (Or.inr (Or.inr (Or.inr h4)))
        · exfalso
          have hA : pre2 ++ litTitleTauri ++ v ++ '"' :: tail2 =
              (pre2 ++ litTitleTauri ++ v ++ ['"']) ++ tail2 := by simp
          rw [hA] at hi
          rw [get_append_right (by simp [hlenT]; omega)] at hi
          exact ht (mem_of_get hi)

theorem lastQuoteDecomp_quote_pos {p₀ v t₀ : Line} (hq : '"' ∉ v) (ht : '"' ∉ t₀) :
    ∀ i, (p₀ ++ litVersionJson ++ v ++ '"' :: t₀)[i]? = some '"' →
      p₀.length + 12 ≤ i → i = p₀.length + 12 + v.length := by
  intro i hi hge
  have hlenV : litVersionJson.length = 12 := by decide
  by_cases h1 : i < p₀.length + 12 + v.length
  · exfalso
    have hv : (p₀ ++ litVersionJson ++ v ++ '"' :: t₀)[i]? = v[i - (p₀.length + 12)]? := by
      have hg := decomp_get (show p₀ ++ litVersionJson ++ v ++ '"' :: t₀ =
        (p₀ ++ litVersionJson) ++ v ++ ('"' :: t₀) by simp)
        (show i - (p₀.length + 12) < v.length by omega)
      rw [show (p₀ ++ litVersionJson).length = p₀.length + 12 by simp [hlenV]] at hg
      rw [show p₀.length + 12 + (i - (p₀.length + 12)) = i by omega] at hg
      exact hg
    rw [hv] at hi
    exact hq (mem_of_get hi)
  · by_cases h2 : i = p₀.length + 12 + v.length
    · exact h2
    · exfalso
      have hA : p₀ ++ litVersionJson ++ v ++ '"' :: t₀ =
          (p₀ ++ litVersionJson ++ v ++ ['"']) ++ t₀ := by simp
      rw [hA] at hi
      rw [get_append_right (by simp [hlenV]; omega)] at hi
      exact ht (mem_of_get hi)

theorem two_decomp_contra {X p₀ v t₀ pre2 a2 tail2 : Line}
    (hq : '"' ∉ v) (ht₀ : '"' ∉ t₀)
    (h1 : X = p₀ ++ litVersionJson ++ v ++ '"' :: t₀)
    (h2 : X = pre2 ++ litTitleTauri ++ a2 ++ '"' :: tail2)
    (hle : p₀.length + 12 ≤ pre2.length + 6) : False := by
  have hq6 : X[pre2.length + 6]? = some '"' := by
    rw [h2]
    have hg := decomp_get (show pre2 ++ litTitleTauri ++ a2 ++ '"' :: tail2 =
      pre2 ++ litTitleTauri ++ (a2 ++ '"' :: tail2) by simp)
      (show 6 < litTitleTauri.length by decide)
    rw [hg]
    decide
  have hq9 : X[pre2.length + 9]? = some '"' := by
    rw [h2]
    have hg := decomp_get (show pre2 ++ litTitleTauri ++ a2 ++ '"' :: tail2 =
      pre2 ++ litTitleTauri ++ (a2 ++ '"' :: tail2) by simp)
      (show 9 < litTitleTauri.length by decide)
    rw [hg]
    decide
  rw [h1] at hq6 hq9
  have e6 := lastQuoteDecomp_quote_pos hq ht₀ _ hq6 (by omega)
  have e9 := lastQuoteDecomp_quote_pos hq ht₀ _ hq9 (by omega)
  omega

theorem titleOut_match_core {v X pre2 a2 tail2 g r' : Line} (hq : '"' ∉ v)
    (hTV : jsonVersionSub v X = X)
    (hX2 : X = pre2 ++ litTitleTauri ++ a2 ++ '"' :: tail2)
    (hdec : pre2 ++ litTitleTauri ++ v ++ '"' :: tail2 = g ++ litVersionJson ++ r')
    (hle : g.length + 12 ≤ pre2.length + 1) : False := by
  have hlenT : litTitleTauri.length = 24 := by decide
  have hlenV : litVersionJson.length = 12 := by decide
  have hch : ∀ k, k < litVersionJson.length → X[g.length + k]? = litVersionJson[k]? := by
    intro k hk
    have h1 : (pre2 ++ litTitleTauri ++ v ++ '"' :: tail2)[g.length + k]? =
        litVersionJson[k]? := decomp_get hdec hk
    have hpos : g.length + k < (pre2 ++ litTitleTauri).length := by
      rw [hlenV] at hk
      simp [hlenT]
      omega
    rw [hX2]
    rw [show pre2 ++ litTitleTauri ++ a2 ++ '"' :: tail2 =
      (pre2 ++ litTitleTauri) ++ (a2 ++ '"' :: tail2) from by simp]
    rw [get_shared hpos]
    rw [show (pre2 ++ litTitleTauri) ++ (v ++ '"' :: tail2) =
      pre2 ++ litTitleTauri ++ v ++ '"' :: tail2 from by simp]
    exact h1
  have hXlen : g.length + litVersionJson.length ≤ X.length := by
    have hdl := decomp_len hX2
    simp [hlenT] at hdl
    rw [hlenV]
    omega
  have hocc := occ_of_charwise hXlen hch
  have hcomp := splitFirstLit_complete hocc
  cases hfX : splitFirstLit litVersionJson X with
  | none =>
    rw [hfX] at hcomp
    simp at hcomp
  | some q0 =>
    obtain ⟨p₀, r₀⟩ := q0
    have hmin := splitFirstLit_min hfX _ _ hocc
    rw [List.length_take] at hmin
    have hq0le : p₀.length ≤ g.length := by omega
    have hsound0 := splitFirstLit_sound hfX
    have hquote6 : X[pre2.length + 6]? = some '"' := by
      have hg := decomp_get (show X = pre2 ++ litTitleTauri ++ (a2 ++ '"' :: tail2) from by
        rw [hX2]; simp) (show 6 < litTitleTauri.length by decide)
      rw [hg]
      decide
    have hmem : '"' ∈ r₀ := by
      have hdd : X = (p₀ ++ litVersionJson) ++ r₀ := hsound0
      rw [hdd] at hquote6
      rw [get_append_right (by simp [hlenV]; omega)] at hquote6
      exact mem_of_get hquote6
    obtain ⟨y, z, hyz⟩ := List.append_of_mem hmem
    have hclw := splitLastLit_complete (show r₀ = y ++ ['"'] ++ z from by rw [hyz]; simp)
    cases hlX : splitLastLit ['"'] r₀ with
    | none =>
      rw [hlX] at hclw
      simp at hclw
    | some q2 =>
      obtain ⟨a₀, t₀⟩ := q2
      have ht₀ : '"' ∉ t₀ := splitLastLit_single_not_mem hlX
      have hout : jsonVersionSub v X = p₀ ++ litVersionJson ++ v ++ '"' :: t₀ := by
        simp [jsonVersionSub, hfX, hlX]
      rw [hTV] at hout
      exact two_decomp_contra hq ht₀ hout hX2 (by omega)

theorem no_litV_in_titleOut {v X pre2 r2 a2 tail2 : Line} (hq : '"' ∉ v)
    (hTV : jsonVersionSub v X = X)
    (hf : splitFirstLit litTitleTauri X = some (pre2, r2))
    (hl : splitLastLit ['"'] r2 = some (a2, tail2)) :
    ∀ g r', pre2 ++ litTitleTauri ++ v ++ '"' :: tail2 = g ++ litVersionJson ++ r' →
      False := by
  intro g r' hdec
  have hlenT : litTitleTauri.length = 24 := by decide
  have htail2 : '"' ∉ tail2 := splitLastLit_single_not_mem hl
  have hX2 : X = pre2 ++ litTitleTauri ++ a2 ++ '"' :: tail2 := by
    have h1 := splitFirstLit_sound hf
    have h2 := splitLastLit_sound hl
    rw [h1, h2]
    simp
  have h11 : (pre2 ++ litTitleTauri ++ v ++ '"' :: tail2)[g.length + 11]? = some '"' := by
    have hg := decomp_get hdec (show (11 : Nat) < litVersionJson.length by decide)
    rw [hg]
    decide
  have hpos := out2_quote_pos hq htail2 _ h11
  rcases hpos with hc | hc | hc | hc | hc
  · exact titleOut_match_core hq hTV hX2 hdec (by omega)
  · exact titleOut_match_core hq hTV hX2 hdec (by omega)
  · have ha := decomp_get hdec (show (5 : Nat) < litVersionJson.length by decide)
    have hb : (pre2 ++ litTitleTauri ++ v ++ '"' :: tail2)[pre2.length]? =
        litTitleTauri[0]? := by
      have hg := decomp_get (show pre2 ++ litTitleTauri ++ v ++ '"' :: tail2 =
        pre2 ++ litTitleTauri ++ (v ++ '"' :: tail2) from by simp)
        (show (0 : Nat) < litTitleTauri.length by decide)
      simpa using hg
    rw [show g.length + 5 = pre2.length from by omega] at ha
    rw [hb] at ha
    exact absurd ha (by decide)
  · have ha := decomp_get hdec (show (2 : Nat) < litVersionJson.length by decide)
    have hb : (pre2 ++ litTitleTauri ++ v ++ '"' :: tail2)[pre2.length]? =
        litTitleTauri[0]? := by
      have hg := decomp_get (show pre2 ++ litTitleTauri ++ v ++ '"' :: tail2 =
        pre2 ++ litTitleTauri ++ (v ++ '"' :: tail2) from by simp)
        (show (0 : Nat) < litTitleTauri.length by decide)
      simpa using hg
    rw [show g.length + 2 = pre2.length from by omega] at ha
    rw [hb] at ha
    exact absurd ha (by decide)
  · have ha := decomp_get hdec (show (0 : Nat) < litVersionJson.length by decide)
    rw [Nat.add_zero] at ha
    by_cases hv : 11 ≤ v.length
    · have hb : (pre2 ++ litTitleTauri ++ v ++ '"' :: tail2)[g.length]? =
          v[g.length - (pre2.length + 24)]? := by
        have hg := decomp_get (show pre2 ++ litTitleTauri ++ v ++ '"' :: tail2 =
          (pre2 ++ litTitleTauri) ++ v ++ ('"' :: tail2) from by simp)
          (show g.length - (pre2.length + 24) < v.length from by omega)
        rw [show (pre2 ++ litTitleTauri).length = pre2.length + 24 from by
          simp [hlenT]] at hg
        rw [show pre2.length + 24 + (g.length - (pre2.length + 24)) = g.length from by
          omega] at hg
        exact hg
      rw [hb] at ha
      exact hq (mem_of_get (ha.trans (show litVersionJson[0]? = some '"' from by decide)))
    · have hb : (pre2 ++ litTitleTauri ++ v ++ '"' :: tail2)[g.length]? =
          litTitleTauri[g.length - pre2.length]? := by
        have hg := decomp_get (show pre2 ++ litTitleTauri ++ v ++ '"' :: tail2 =
          pre2 ++ litTitleTauri ++ (v ++ '"' :: tail2) from by simp)
          (show g.length - pre2.length < litTitleTauri.length from by rw [hlenT]; omega)
        rw [show pre2.length + (g.length - pre2.length) = g.length from by omega] at hg
        exact hg
      rw [hb] at ha
      have hno : ∀ j, 13 ≤ j → j < 24 →
          ¬(litTitleTauri[j]? = litVersionJson[0]?) := by decide
      exact hno (g.length - pre2.length) (by omega) (by omega) ha

theorem jsonVersionSub_skips_titleOut {v X pre2 r2 a2 tail2 : Line} (hq : '"' ∉ v)
    (hTV : jsonVersionSub v X = X)
    (hf : splitFirstLit litTitleTauri X = some (pre2, r2))
    (hl : splitLastLit ['"'] r2 = some (a2, tail2)) :
    jsonVersionSub v (pre2 ++ litTitleTauri ++ v ++ '"' :: tail2) =
      pre2 ++ litTitleTauri ++ v ++ '"' :: tail2 := by
  cases hfo : splitFirstLit litVersionJson (pre2 ++ litTitleTauri ++ v ++ '"' :: tail2) with
  | none =>
    have hfo2 : splitFirstLit litVersionJson
        (pre2 ++ (litTitleTauri ++ (v ++ '"' :: tail2))) = none := by
      simpa using hfo
    simp [jsonVersionSub, hfo2]
  | some q =>
    obtain ⟨g, r'⟩ := q
    exact absurd (splitFirstLit_sound hfo) fun h => no_litV_in_titleOut hq hTV hf hl g r' h

theorem tauriTitleSub_idem {v ln : Line} :
    tauriTitleSub v (tauriTitleSub v ln) = tauriTitleSub v ln := by
  cases hf : splitFirstLit litTitleTauri ln with
  | none =>
    have e : tauriTitleSub v ln = ln := by simp [tauriTitleSub, hf]
    rw [e]
    exact e
  | some q =>
    obtain ⟨pre, r⟩ := q
    cases hl : splitLastLit ['"'] r with
    | none =>
      have e : tauriTitleSub v ln = ln := by simp [tauriTitleSub, hf, hl]
      rw [e]
      exact e
    | some q2 =>
      obtain ⟨a, tail⟩ := q2
      have e : tauriTitleSub v ln = pre ++ litTitleTauri ++ v ++ '"' :: tail := by
        simp [tauriTitleSub, hf, hl]
      rw [e]
      have hs1 : splitFirstLit litTitleTauri
          (pre ++ (litTitleTauri ++ (v ++ '"' :: tail))) =
          some (pre, v ++ '"' :: tail) := by
        have h0 := @firstLit_lastQuote_stable litTitleTauri ln pre r tail v hf
        simpa using h0
      have hs2 : splitLastLit ['"'] (v ++ '"' :: tail) = some (v, tail) := by
        have h0 := @splitLastLit_single_eq '"' v tail (splitLastLit_single_not_mem hl)
        simpa using h0
      simp [tauriTitleSub, hs1, hs2]

theorem tauriLine_idem {v ln : Line} (hq : '"' ∉ v) :
    tauriLine v (tauriLine v ln) = tauriLine v ln := by
  unfold tauriLine
  cases hf : splitFirstLit litTitleTauri (jsonVersionSub v ln) with
  | none =>
    have e : tauriTitleSub v (jsonVersionSub v ln) = jsonVersionSub v ln := by
      simp [tauriTitleSub, hf]
    rw [e, jsonVersionSub_idem, e]
  | some q =>
    obtain ⟨pre2, r2⟩ := q
    cases hl : splitLastLit ['"'] r2 with
    | none =>
      have e : tauriTitleSub v (jsonVersionSub v ln) = jsonVersionSub v ln := by
        simp [tauriTitleSub, hf, hl]
      rw [e, jsonVersionSub_idem, e]
    | some q2 =>
      obtain ⟨a2, tail2⟩ := q2
      have e : tauriTitleSub v (jsonVersionSub v ln) =
          pre2 ++ litTitleTauri ++ v ++ '"' :: tail2 := by
        simp [tauriTitleSub, hf, hl]
      rw [e]
      have hskip := jsonVersionSub_skips_titleOut hq jsonVersionSub_idem hf hl
      rw [hskip]
      rw [← e]
      exact tauriTitleSub_idem

theorem tauriConf_idem {v : Line} (hq : '"' ∉ v) (content : List Line) :
    tauriConf v (tauriConf v content) = tauriConf v content := by
  unfold tauriConf
  rw [List.map_map]
  exact List.map_congr_left fun ln _ => tauriLine_idem hq

theorem stripPre_mismatch {p A : Line} (v : Line) (i : Nat) (hip : i < p.length)
    (hiA : i < A.length) (hne : ¬(p[i]? = A[i]?)) : stripPre p (A ++ v) = none := by
  cases h : stripPre p (A ++ v) with
  | none => rfl
  | some r =>
    exfalso
    apply hne
    have hd := stripPre_eq_some h
    have h2 : (A ++ v)[i]? = p[i]? := by
      rw [hd]
      exact get_append_left hip
    rw [get_append_left hiA] at h2
    exact h2.symm

theorem stripPre_append_cancel (a b w : Line) :
    stripPre (a ++ b) (a ++ w) = stripPre b w := by
  induction a with
  | nil => rfl
  | cons c cs ih => simp [stripPre, ih]

theorem stripPre_prefix_some {a b l x : Line} (h : stripPre (a ++ b) l = some x) :
    stripPre a l = some (b ++ x) := by
  apply stripPre_iff.mpr
  have hd := stripPre_eq_some h
  rw [hd]
  simp

theorem stripPre_space_congr {u : Line} (g X Y : Line)
    (h : ∀ i, u[i]? = some ' ' → i + 1 = u.length) :
    (stripPre u (g ++ ' ' :: X)).isSome = (stripPre u (g ++ ' ' :: Y)).isSome := by
  induction u generalizing g with
  | nil => simp [stripPre]
  | cons p ps ih =>
    cases g with
    | nil =>
      simp only [List.nil_append]
      by_cases hp : p = ' '
      · subst hp
        have h0 := h 0 (by simp)
        have hps : ps = [] := by
          have hl : ps.length = 0 := by simpa using h0
          exact List.eq_nil_of_length_eq_zero hl
        subst hps
        simp [stripPre]
      · simp [stripPre, hp]
    | cons c cs =>
      simp only [List.cons_append]
      by_cases hp : p = c
      · subst hp
        simp only [stripPre, if_pos rfl]
        refine ih cs fun i hi => ?_
        have h2 := h (i + 1) (by simpa using hi)
        simp at h2
        omega
      · simp [stripPre, hp]

theorem splitG2_no_space {l : Line} (h : ' ' ∉ l) : splitG2 l = none := by
  cases hs : splitG2 l with
  | none => rfl
  | some p =>
    obtain ⟨g2, g3, t⟩ := p
    exfalso
    apply h
    rw [(splitG2_sound hs).1]
    simp

theorem linkTail_space_pos {u v : Line} (hsp : ' ' ∉ v)
    (husp : ∀ j, u[j]? = some ' ' → j + 1 = u.length) :
    ∀ i, (u ++ v)[i]? = some ' ' → i + 1 = u.length := by
  intro i hi
  by_cases h1 : i < u.length
  · rw [get_append_left h1] at hi
    exact husp i hi
  · rw [get_append_right (by omega)] at hi
    exact absurd (mem_of_get hi) hsp

theorem splitG1_linkTail_none {u v : Line} (hsp : ' ' ∉ v)
    (husp : ∀ j, u[j]? = some ' ' → j + 1 = u.length) :
    splitG1 (u ++ v) = none := by
  cases h : splitG1 (u ++ v) with
  | none => rfl
  | some p =>
    exfalso
    obtain ⟨g1, g2, g3, t⟩ := p
    obtain ⟨s, hdec, hs2⟩ := splitG1_sound h
    have hmem : ' ' ∈ s := by
      rw [(splitG2_sound hs2).1]
      simp
    obtain ⟨x, y, hxy⟩ := List.append_of_mem hmem
    have h1 : (u ++ v)[g1.length]? = some ' ' := by
      rw [hdec]
      exact get_at_append_cons g1 ' ' s
    have h2 := get_at_append_cons (g1 ++ ' ' :: x) ' ' y
    rw [show (g1 ++ ' ' :: x) ++ ' ' :: y = u ++ v from by rw [hdec, hxy]; simp] at h2
    have e1 := linkTail_space_pos hsp husp _ h1
    have e2 := linkTail_space_pos hsp husp _ h2
    simp at e2
    omega

theorem mitRegion_space_pos {v t : Line} (hsp : ' ' ∉ v) :
    ∀ i, (v ++ litMIT ++ t)[i]? = some ' ' → i = v.length ∨ v.length + 6 ≤ i := by
  intro i hi
  have hlenM : litMIT.length = 6 := by decide
  by_cases h1 : i < v.length
  · exfalso
    rw [List.append_assoc, get_append_left h1] at hi
    exact hsp (mem_of_get hi)
  · by_cases h2 : i < v.length + 6
    · left
      have hg : (v ++ litMIT ++ t)[i]? = litMIT[i - v.length]? := by
        have h3 := decomp_get (show v ++ litMIT ++ t = v ++ litMIT ++ t from rfl)
          (show i - v.length < litMIT.length from by rw [hlenM]; omega)
        rw [show v.length + (i - v.length) = i from by omega] at h3
        exact h3
      rw [hg] at hi
      have hd : ∀ j, j < 6 → litMIT[j]? = some ' ' → j = 0 := by decide
      have h4 := hd (i - v.length) (by omega) hi
      omega
    · right
      omega

theorem splitLastLit_mit_stable {r a tail : Line} (v : Line)
    (horig : splitLastLit litMIT r = some (a, tail)) :
    splitLastLit litMIT (v ++ litMIT ++ tail) = some (v, tail) := by
  have hrd := splitLastLit_sound horig
  have hM : litMIT.length = 6 := by decide
  refine splitLastLit_eq rfl ?_
  intro g' t' hdec
  by_contra hlt
  push_neg at hlt
  by_cases hbig : v.length + 6 ≤ g'.length
  · have hA : (v ++ litMIT) ++ tail = g' ++ (litMIT ++ t') :=
      hdec.trans (List.append_assoc g' litMIT t')
    obtain ⟨g'', hg1, hg2⟩ := occ_suffix hA (by rw [List.length_append, hM]; omega)
    have hrdec : r = (a ++ litMIT ++ g'') ++ litMIT ++ t' := by
      rw [hrd, hg2]
      simp
    have hmax := splitLastLit_max horig _ _ hrdec
    simp [hM] at hmax
  · have hsp0 : (v ++ litMIT ++ tail)[g'.length]? = some ' ' := by
      have h3 := decomp_get hdec (show 0 < litMIT.length from by decide)
      rw [Nat.add_zero] at h3
      rw [h3]
      decide
    have hg : (v ++ litMIT ++ tail)[g'.length]? = litMIT[g'.length - v.length]? := by
      have h3 := decomp_get (show v ++ litMIT ++ tail = v ++ litMIT ++ tail from rfl)
        (show g'.length - v.length < litMIT.length from by rw [hM]; omega)
      rw [show v.length + (g'.length - v.length) = g'.length from by omega] at h3
      exact h3
    rw [hg] at hsp0
    have hd : ∀ j, 1 ≤ j → j < 6 → ¬(litMIT[j]? = some ' ') := by decide
    exact hd (g'.length - v.length) (by omega) (by omega) hsp0

theorem splitG2_paren_after_space {b : Line} (hb : (splitG2 b).isSome) :
    ∃ x2 x3 xt, b = x2 ++ ' ' :: '(' :: (x3 ++ ')' :: xt) := by
  cases h : splitG2 b with
  | none =>
    rw [h] at hb
    simp at hb
  | some p =>
    obtain ⟨x2, x3, xt⟩ := p
    exact ⟨x2, x3, xt, (splitG2_sound h).1⟩

theorem splitG2_mit_stable {s g2 g3 t : Line} (v : Line) (hsp : ' ' ∉ v)
    (horig : splitG2 s = some (g2, g3, t)) :
    splitG2 (v ++ litMIT ++ t) = some (v, ['M', 'I', 'T'], t) := by
  obtain ⟨hsd, hpt⟩ := splitG2_sound horig
  have hM : litMIT.length = 6 := by decide
  refine splitG2_eq (show v ++ litMIT ++ t =
    v ++ ' ' :: '(' :: (['M', 'I', 'T'] ++ ')' :: t) from by
      rw [show litMIT = [' ', '(', 'M', 'I', 'T', ')'] from by decide]
      simp) ?_ ?_
  · have h0 := @splitLastLit_single_eq ')' (['M', 'I', 'T'] : Line) t hpt
    simpa using h0
  · intro aa bb hdec hpb
    by_contra hlt
    push_neg at hlt
    have hspA : (v ++ litMIT ++ t)[aa.length]? = some ' ' := by
      rw [hdec]
      exact get_at_append_cons aa ' ' ('(' :: bb)
    rcases mitRegion_space_pos hsp _ hspA with he | hge
    · omega
    · obtain ⟨g'', hg1, hg2⟩ := occ_suffix hdec (by rw [List.length_append, hM]; omega)
      apply hpt
      rw [hg2]
      simp [hpb]

theorem splitG1_mit_stable {r g1 g2 g3 t : Line} (v : Line) (hsp : ' ' ∉ v)
    (horig : splitG1 r = some (g1, g2, g3, t)) :
    splitG1 (g1 ++ ' ' :: (v ++ litMIT ++ t)) = some (g1, v, ['M', 'I', 'T'], t) := by
  obtain ⟨s, hrd, hs2⟩ := splitG1_sound horig
  obtain ⟨hsd, hpt⟩ := splitG2_sound hs2
  have hM : litMIT.length = 6 := by decide
  have hstab := splitG2_mit_stable v hsp hs2
  refine splitG1_eq rfl hstab ?_
  intro a b hdec hb
  by_contra hlt
  push_neg at hlt
  have hspA : (g1 ++ ' ' :: (v ++ litMIT ++ t))[a.length]? = some ' ' := by
    rw [hdec]
    exact get_at_append_cons a ' ' b
  have hj : (v ++ litMIT ++ t)[a.length - g1.length - 1]? = some ' ' := by
    rw [show g1 ++ ' ' :: (v ++ litMIT ++ t) = (g1 ++ [' ']) ++ (v ++ litMIT ++ t) from by
      simp] at hspA
    rw [get_append_right (by simp; omega)] at hspA
    rw [show a.length - (g1 ++ [' ']).length = a.length - g1.length - 1 from by
      simp; omega] at hspA
    exact hspA
  rcases mitRegion_space_pos hsp _ hj with he | hge
  · -- the competing space is the one inside litMIT; identify b and find a ')' in t
    have h1 : g1 ++ ' ' :: (v ++ litMIT ++ t) =
        (g1 ++ ' ' :: v) ++ ' ' :: ('(' :: ('M' :: 'I' :: 'T' :: ')' :: t)) := by
      rw [show litMIT = [' ', '(', 'M', 'I', 'T', ')'] from by decide]
      simp
    have h3 : (a ++ [' ']) ++ b =
        ((g1 ++ ' ' :: v) ++ [' ']) ++ ('(' :: 'M' :: 'I' :: 'T' :: ')' :: t) := by
      have h4 := hdec.symm.trans h1
      simpa using h4
    obtain ⟨-, hbeq⟩ := List.append_inj h3 (by simp; omega)
    have hbeq2 : b = ['(', 'M', 'I', 'T', ')'] ++ t :=
      hbeq.trans (rfl : (['(', 'M', 'I', 'T', ')'] : Line) ++ t =
        '(' :: 'M' :: 'I' :: 'T' :: ')' :: t).symm
    obtain ⟨x2, x3, xt, hbd⟩ := splitG2_paren_after_space hb
    have hcomb : ['(', 'M', 'I', 'T', ')'] ++ t = x2 ++ ' ' :: '(' :: (x3 ++ ')' :: xt) :=
      hbeq2.symm.trans hbd
    have h5 : 5 ≤ x2.length := by
      by_contra hx
      push_neg at hx
      have hspb : (['(', 'M', 'I', 'T', ')'] ++ t)[x2.length]? = some ' ' := by
        rw [hcomb]
        exact get_at_append_cons x2 ' ' ('(' :: (x3 ++ ')' :: xt))
      rw [get_append_left (by simp; omega)] at hspb
      have hdd : ∀ j, j < 5 → ¬((['(', 'M', 'I', 'T', ')'] : Line)[j]? = some ' ') := by
        decide
      exact hdd x2.length (by simpa using hx) hspb
    have hcomb2 : (x2 ++ ' ' :: '(' :: x3) ++ ')' :: xt = ['(', 'M', 'I', 'T', ')'] ++ t := by
      rw [hcomb]
      simp
    have hge2 := get_at_append_cons (x2 ++ ' ' :: '(' :: x3) ')' xt
    rw [hcomb2] at hge2
    rw [get_append_right (by simp; omega)] at hge2
    exact hpt (mem_of_get hge2)
  · -- the competing space lies inside t; the whole of b is a suffix of t
    have hA : (g1 ++ [' '] ++ v ++ litMIT) ++ t = a ++ ' ' :: b := by
      rw [← hdec]
      simp
    obtain ⟨g'', hg1, hg2⟩ := occ_suffix hA (by simp [hM]; omega)
    obtain ⟨x2, x3, xt, hbd⟩ := splitG2_paren_after_space hb
    apply hpt
    rw [hg2, hbd]
    simp

theorem husp_soem : ∀ i, ("-link-soem ".toList)[i]? = some ' ' →
    i + 1 = ("-link-soem ".toList).length := by
  have hb : ∀ i, i < 11 → ("-link-soem ".toList)[i]? = some ' ' → i + 1 = 11 := by decide
  intro i hi
  have hlt := lt_of_get hi
  rw [show ("-link-soem ".toList).length = 11 from by decide] at hlt ⊢
  exact hb i hlt hi

theorem husp_twincat : ∀ i, ("-link-twincat ".toList)[i]? = some ' ' →
    i + 1 = ("-link-twincat ".toList).length := by
  have hb : ∀ i, i < 14 → ("-link-twincat ".toList)[i]? = some ' ' → i + 1 = 14 := by
    decide
  intro i hi
  have hlt := lt_of_get hi
  rw [show ("-link-twincat ".toList).length = 14 from by decide] at hlt ⊢
  exact hb i hlt hi

theorem stripPre_soem_autd3 (w : Line) :
    stripPre litSoemLink (litAutd3 ++ w) = stripPre ("-link-soem ".toList) w := by
  rw [show litSoemLink = litAutd3 ++ "-link-soem ".toList from by decide]
  exact stripPre_append_cancel _ _ _

theorem stripPre_twincat_autd3 (w : Line) :
    stripPre litTwincatLink (litAutd3 ++ w) = stripPre ("-link-twincat ".toList) w := by
  rw [show litTwincatLink = litAutd3 ++ "-link-twincat ".toList from by decide]
  exact stripPre_append_cancel _ _ _

theorem noticeLine_soemOut (v : Line) (hsp : ' ' ∉ v) :
    noticeLine v (litSoemLink ++ v) = litSoemLink ++ v := by
  have h1 : stripPre litAutd3 (litSoemLink ++ v) =
      some ("-link-soem ".toList ++ v) := by
    rw [show litSoemLink = litAutd3 ++ "-link-soem ".toList from by decide,
      List.append_assoc]
    exact stripPre_append _ _
  have h2 : splitG1 ("-link-soem ".toList ++ v) = none :=
    splitG1_linkTail_none hsp husp_soem
  have e1 : noticeSub1 v (litSoemLink ++ v) = litSoemLink ++ v := by
    have h2b : splitG1
        ('-' :: 'l' :: 'i' :: 'n' :: 'k' :: '-' :: 's' :: 'o' :: 'e' :: 'm' :: ' ' :: v) =
        none := by simpa using h2
    simp [noticeSub1, h1, h2b]
  have e2 : noticeSub2 v (litSoemLink ++ v) = litSoemLink ++ v := by
    simp [noticeSub2, stripPre_append]
  have e3 : noticeSub3 v (litSoemLink ++ v) = litSoemLink ++ v := by
    have hn : stripPre litTwincatLink (litSoemLink ++ v) = none :=
      stripPre_mismatch v 11 (by decide) (by decide) (by decide)
    simp [noticeSub3, hn]
  have e4 : noticeSub4 v (litSoemLink ++ v) = litSoemLink ++ v := by
    have hn : stripPre litSOEMServer (litSoemLink ++ v) = none :=
      stripPre_mismatch v 0 (by decide) (by decide) (by decide)
    simp [noticeSub4, hn]
  have e5 : noticeSub5 v (litSoemLink ++ v) = litSoemLink ++ v := by
    have hn : stripPre litSimulatorSp (litSoemLink ++ v) = none :=
      stripPre_mismatch v 0 (by decide) (by decide) (by decide)
    simp [noticeSub5, hn]
  rw [noticeLine, e1, e2, e3, e4, e5]

theorem noticeLine_twincatOut (v : Line) (hsp : ' ' ∉ v) :
    noticeLine v (litTwincatLink ++ v) = litTwincatLink ++ v := by
  have h1 : stripPre litAutd3 (litTwincatLink ++ v) =
      some ("-link-twincat ".toList ++ v) := by
    rw [show litTwincatLink = litAutd3 ++ "-link-twincat ".toList from by decide,
      List.append_assoc]
    exact stripPre_append _ _
  have h2 : splitG1 ("-link-twincat ".toList ++ v) = none :=
    splitG1_linkTail_none hsp husp_twincat
  have e1 : noticeSub1 v (litTwincatLink ++ v) = litTwincatLink ++ v := by
    have h2b : splitG1
        ('-' :: 'l' :: 'i' :: 'n' :: 'k' :: '-' :: 't' :: 'w' :: 'i' :: 'n' :: 'c' :: 'a'
          :: 't' :: ' ' :: v) = none := by simpa using h2
    simp [noticeSub1, h1, h2b]
  have e2 : noticeSub2 v (litTwincatLink ++ v) = litTwincatLink ++ v := by
    have hn : stripPre litSoemLink (litTwincatLink ++ v) = none :=
      stripPre_mismatch v 11 (by decide) (by decide) (by decide)
    simp [noticeSub2, hn]
  have e3 : noticeSub3 v (litTwincatLink ++ v) = litTwincatLink ++ v := by
    simp [noticeSub3, stripPre_append]
  have e4 : noticeSub4 v (litTwincatLink ++ v) = litTwincatLink ++ v := by
    have hn : stripPre litSOEMServer (litTwincatLink ++ v) = none :=
      stripPre_mismatch v 0 (by decide) (by decide) (by decide)
    simp [noticeSub4, hn]
  have e5 : noticeSub5 v (litTwincatLink ++ v) = litTwincatLink ++ v := by
    have hn : stripPre litSimulatorSp (litTwincatLink ++ v) = none :=
      stripPre_mismatch v 0 (by decide) (by decide) (by decide)
    simp [noticeSub5, hn]
  rw [noticeLine, e1, e2, e3, e4, e5]

theorem noticeLine_soemServerOut (v : Line) {r a tail : Line}
    (horig : splitLastLit litMIT r = some (a, tail)) :
    noticeLine v (litSOEMServer ++ (v ++ litMIT ++ tail)) =
      litSOEMServer ++ (v ++ litMIT ++ tail) := by
  have hM2 : splitLastLit litMIT (v ++ (litMIT ++ tail)) = some (v, tail) := by
    simpa using splitLastLit_mit_stable v horig
  have e1 : noticeSub1 v (litSOEMServer ++ (v ++ litMIT ++ tail)) =
      litSOEMServer ++ (v ++ litMIT ++ tail) := by
    have hn : stripPre litAutd3 (litSOEMServer ++ (v ++ (litMIT ++ tail))) = none :=
      stripPre_mismatch _ 0 (by decide) (by decide) (by decide)
    simp [noticeSub1, hn]
  have e2 : noticeSub2 v (litSOEMServer ++ (v ++ litMIT ++ tail)) =
      litSOEMServer ++ (v ++ litMIT ++ tail) := by
    have hn : stripPre litSoemLink (litSOEMServer ++ (v ++ (litMIT ++ tail))) = none :=
      stripPre_mismatch _ 0 (by decide) (by decide) (by decide)
    simp [noticeSub2, hn]
  have e3 : noticeSub3 v (litSOEMServer ++ (v ++ litMIT ++ tail)) =
      litSOEMServer ++ (v ++ litMIT ++ tail) := by
    have hn : stripPre litTwincatLink (litSOEMServer ++ (v ++ (litMIT ++ tail))) = none :=
      stripPre_mismatch _ 0 (by decide) (by decide) (by decide)
    simp [noticeSub3, hn]
  have e4 : noticeSub4 v (litSOEMServer ++ (v ++ litMIT ++ tail)) =
      litSOEMServer ++ (v ++ litMIT ++ tail) := by
    simp [noticeSub4, stripPre_append, hM2]
  have e5 : noticeSub5 v (litSOEMServer ++ (v ++ litMIT ++ tail)) =
      litSOEMServer ++ (v ++ litMIT ++ tail) := by
    have hn : stripPre litSimulatorSp (litSOEMServer ++ (v ++ (litMIT ++ tail))) = none :=
      stripPre_mismatch _ 0 (by decide) (by decide) (by decide)
    simp [noticeSub5, hn]
  rw [noticeLine, e1, e2, e3, e4, e5]

theorem noticeLine_simulatorOut (v : Line) {r a tail : Line}
    (horig : splitLastLit litMIT r = some (a, tail)) :
    noticeLine v (litSimulatorSp ++ (v ++ litMIT ++ tail)) =
      litSimulatorSp ++ (v ++ litMIT ++ tail) := by
  have hM2 : splitLastLit litMIT (v ++ (litMIT ++ tail)) = some (v, tail) := by
    simpa using splitLastLit_mit_stable v horig
  have e1 : noticeSub1 v (litSimulatorSp ++ (v ++ litMIT ++ tail)) =
      litSimulatorSp ++ (v ++ litMIT ++ tail) := by
    have hn : stripPre litAutd3 (litSimulatorSp ++ (v ++ (litMIT ++ tail))) = none :=
      stripPre_mismatch _ 0 (by decide) (by decide) (by decide)
    simp [noticeSub1, hn]
  have e2 : noticeSub2 v (litSimulatorSp ++ (v ++ litMIT ++ tail)) =
      litSimulatorSp ++ (v ++ litMIT ++ tail) := by
    have hn : stripPre litSoemLink (litSimulatorSp ++ (v ++ (litMIT ++ tail))) = none :=
      stripPre_mismatch _ 0 (by decide) (by decide) (by decide)
    simp [noticeSub2, hn]
  have e3 : noticeSub3 v (litSimulatorSp ++ (v ++ litMIT ++ tail)) =
      litSimulatorSp ++ (v ++ litMIT ++ tail) := by
    have hn : stripPre litTwincatLink (litSimulatorSp ++ (v ++ (litMIT ++ tail))) = none :=
      stripPre_mismatch _ 0 (by decide) (by decide) (by decide)
    simp [noticeSub3, hn]
  have e4 : noticeSub4 v (litSimulatorSp ++ (v ++ litMIT ++ tail)) =
      litSimulatorSp ++ (v ++ litMIT ++ tail) := by
    have hn : stripPre litSOEMServer (litSimulatorSp ++ (v ++ (litMIT ++ tail))) = none :=
      stripPre_mismatch _ 0 (by decide) (by decide) (by decide)
    simp [noticeSub4, hn]
  have e5 : noticeSub5 v (litSimulatorSp ++ (v ++ litMIT ++ tail)) =
      litSimulatorSp ++ (v ++ litMIT ++ tail) := by
    simp [noticeSub5, stripPre_append, hM2]
  rw [noticeLine, e1, e2, e3, e4, e5]

theorem noticeLine_autd3Out {v r g1 g2 g3 t : Line} (hsp : ' ' ∉ v)
    (horig : splitG1 r = some (g1, g2, g3, t))
    (hns : stripPre litSoemLink (litAutd3 ++ (g1 ++ ' ' :: (v ++ litMIT ++ t))) = none)
    (hnt : stripPre litTwincatLink (litAutd3 ++ (g1 ++ ' ' :: (v ++ litMIT ++ t))) = none) :
    noticeLine v (litAutd3 ++ (g1 ++ ' ' :: (v ++ litMIT ++ t))) =
      litAutd3 ++ (g1 ++ ' ' :: (v ++ litMIT ++ t)) := by
  have hs1 : splitG1 (g1 ++ ' ' :: (v ++ (litMIT ++ t))) =
      some (g1, v, ['M', 'I', 'T'], t) := by
    simpa using splitG1_mit_stable v hsp horig
  have e1 : noticeSub1 v (litAutd3 ++ (g1 ++ ' ' :: (v ++ litMIT ++ t))) =
      litAutd3 ++ (g1 ++ ' ' :: (v ++ litMIT ++ t)) := by
    simp [noticeSub1, stripPre_append, hs1]
  have e2 : noticeSub2 v (litAutd3 ++ (g1 ++ ' ' :: (v ++ litMIT ++ t))) =
      litAutd3 ++ (g1 ++ ' ' :: (v ++ litMIT ++ t)) := by
    have hns2 : stripPre litSoemLink
        (litAutd3 ++ (g1 ++ ' ' :: (v ++ (litMIT ++ t)))) = none := by
      simpa using hns
    simp [noticeSub2, hns2]
  have e3 : noticeSub3 v (litAutd3 ++ (g1 ++ ' ' :: (v ++ litMIT ++ t))) =
      litAutd3 ++ (g1 ++ ' ' :: (v ++ litMIT ++ t)) := by
    have hnt2 : stripPre litTwincatLink
        (litAutd3 ++ (g1 ++ ' ' :: (v ++ (litMIT ++ t)))) = none := by
      simpa using hnt
    simp [noticeSub3, hnt2]
  have e4 : noticeSub4 v (litAutd3 ++ (g1 ++ ' ' :: (v ++ litMIT ++ t))) =
      litAutd3 ++ (g1 ++ ' ' :: (v ++ litMIT ++ t)) := by
    have hn : stripPre litSOEMServer
        (litAutd3 ++ (g1 ++ ' ' :: (v ++ (litMIT ++ t)))) = none :=
      stripPre_mismatch _ 0 (by decide) (by decide) (by decide)
    simp [noticeSub4, hn]
  have e5 : noticeSub5 v (litAutd3 ++ (g1 ++ ' ' :: (v ++ litMIT ++ t))) =
      litAutd3 ++ (g1 ++ ' ' :: (v ++ litMIT ++ t)) := by
    have hn : stripPre litSimulatorSp
        (litAutd3 ++ (g1 ++ ' ' :: (v ++ (litMIT ++ t)))) = none :=
      stripPre_mismatch _ 0 (by decide) (by decide) (by decide)
    simp [noticeSub5, hn]
  rw [noticeLine, e1, e2, e3, e4, e5]

theorem noticeLine_idem {v ln : Line} (hsp : ' ' ∉ v) :
    noticeLine v (noticeLine v ln) = noticeLine v ln := by
  cases ha : stripPre litAutd3 ln with
  | none =>
    have e1 : noticeSub1 v ln = ln := by simp [noticeSub1, ha]
    have hs2 : stripPre litSoemLink ln = none := by
      cases h : stripPre litSoemLink ln with
      | none => rfl
      | some x =>
        exfalso
        rw [show litSoemLink = litAutd3 ++ "-link-soem ".toList from by decide] at h
        have h2 := stripPre_prefix_some h
        rw [ha] at h2
        simp at h2
    have hs3 : stripPre litTwincatLink ln = none := by
      cases h : stripPre litTwincatLink ln with
      | none => rfl
      | some x =>
        exfalso
        rw [show litTwincatLink = litAutd3 ++ "-link-twincat ".toList from by decide] at h
        have h2 := stripPre_prefix_some h
        rw [ha] at h2
        simp at h2
    have e2 : noticeSub2 v ln = ln := by simp [noticeSub2, hs2]
    have e3 : noticeSub3 v ln = ln := by simp [noticeSub3, hs3]
    cases hS : stripPre litSOEMServer ln with
    | some rS =>
      have hlnS := stripPre_eq_some hS
      have h5n : stripPre litSimulatorSp ln = none := by
        rw [hlnS]
        exact stripPre_mismatch _ 0 (by decide) (by decide) (by decide)
      cases hmitS : splitLastLit litMIT rS with
      | none =>
        have e4 : noticeSub4 v ln = ln := by simp [noticeSub4, hS, hmitS]
        have e5 : noticeSub5 v ln = ln := by simp [noticeSub5, h5n]
        have E : noticeLine v ln = ln := by rw [noticeLine, e1, e2, e3, e4, e5]
        rw [E]
        exact E
      | some p =>
        obtain ⟨aS, tailS⟩ := p
        have e4 : noticeSub4 v ln = litSOEMServer ++ (v ++ litMIT ++ tailS) := by
          simp [noticeSub4, hS, hmitS]
        have e5 : noticeSub5 v (litSOEMServer ++ (v ++ litMIT ++ tailS)) =
            litSOEMServer ++ (v ++ litMIT ++ tailS) := by
          have hn : stripPre litSimulatorSp
              (litSOEMServer ++ (v ++ (litMIT ++ tailS))) = none :=
            stripPre_mismatch _ 0 (by decide) (by decide) (by decide)
          simp [noticeSub5, hn]
        have E : noticeLine v ln = litSOEMServer ++ (v ++ litMIT ++ tailS) := by
          rw [noticeLine, e1, e2, e3, e4, e5]
        rw [E]
        exact noticeLine_soemServerOut v hmitS
    | none =>
      have e4 : noticeSub4 v ln = ln := by simp [noticeSub4, hS]
      cases hs5 : stripPre litSimulatorSp ln with
      | some rS =>
        cases hmitS : splitLastLit litMIT rS with
        | none =>
          have e5 : noticeSub5 v ln = ln := by simp [noticeSub5, hs5, hmitS]
          have E : noticeLine v ln = ln := by rw [noticeLine, e1, e2, e3, e4, e5]
          rw [E]
          exact E
        | some p =>
          obtain ⟨aS, tailS⟩ := p
          have e5 : noticeSub5 v ln = litSimulatorSp ++ (v ++ litMIT ++ tailS) := by
            simp [noticeSub5, hs5, hmitS]
          have E : noticeLine v ln = litSimulatorSp ++ (v ++ litMIT ++ tailS) := by
            rw [noticeLine, e1, e2, e3, e4, e5]
          rw [E]
          exact noticeLine_simulatorOut v hmitS
      | none =>
        have e5 : noticeSub5 v ln = ln := by simp [noticeSub5, hs5]
        have E : noticeLine v ln = ln := by rw [noticeLine, e1, e2, e3, e4, e5]
        rw [E]
        exact E
  | some r0 =>
    have hln := stripPre_eq_some ha
    have h4n : stripPre litSOEMServer ln = none := by
      rw [hln]
      exact stripPre_mismatch _ 0 (by decide) (by decide) (by decide)
    have h5n : stripPre litSimulatorSp ln = none := by
      rw [hln]
      exact stripPre_mismatch _ 0 (by decide) (by decide) (by decide)
    cases hG1 : splitG1 r0 with
    | none =>
      have e1 : noticeSub1 v ln = ln := by simp [noticeSub1, ha, hG1]
      cases hsoem : stripPre litSoemLink ln with
      | some w =>
        have e2 : noticeSub2 v ln = litSoemLink ++ v := by simp [noticeSub2, hsoem]
        have e3 : noticeSub3 v (litSoemLink ++ v) = litSoemLink ++ v := by
          have hn : stripPre litTwincatLink (litSoemLink ++ v) = none :=
            stripPre_mismatch v 11 (by decide) (by decide) (by decide)
          simp [noticeSub3, hn]
        have e4 : noticeSub4 v (litSoemLink ++ v) = litSoemLink ++ v := by
          have hn : stripPre litSOEMServer (litSoemLink ++ v) = none :=
            stripPre_mismatch v 0 (by decide) (by decide) (by decide)
          simp [noticeSub4, hn]
        have e5 : noticeSub5 v (litSoemLink ++ v) = litSoemLink ++ v := by
          have hn : stripPre litSimulatorSp (litSoemLink ++ v) = none :=
            stripPre_mismatch v 0 (by decide) (by decide) (by decide)
          simp [noticeSub5, hn]
        have E : noticeLine v ln = litSoemLink ++ v := by
          rw [noticeLine, e1, e2, e3, e4, e5]
        rw [E]
        exact noticeLine_soemOut v hsp
      | none =>
        have e2 : noticeSub2 v ln = ln := by simp [noticeSub2, hsoem]
        cases htw : stripPre litTwincatLink ln with
        | some w =>
          have e3 : noticeSub3 v ln = litTwincatLink ++ v := by simp [noticeSub3, htw]
          have e4 : noticeSub4 v (litTwincatLink ++ v) = litTwincatLink ++ v := by
            have hn : stripPre litSOEMServer (litTwincatLink ++ v) = none :=
              stripPre_mismatch v 0 (by decide) (by decide) (by decide)
            simp [noticeSub4, hn]
          have e5 : noticeSub5 v (litTwincatLink ++ v) = litTwincatLink ++ v := by
            have hn : stripPre litSimulatorSp (litTwincatLink ++ v) = none :=
              stripPre_mismatch v 0 (by decide) (by decide) (by decide)
            simp [noticeSub5, hn]
          have E : noticeLine v ln = litTwincatLink ++ v := by
            rw [noticeLine, e1, e2, e3, e4, e5]
          rw [E]
          exact noticeLine_twincatOut v hsp
        | none =>
          have e3 : noticeSub3 v ln = ln := by simp [noticeSub3, htw]
          have e4 : noticeSub4 v ln = ln := by simp [noticeSub4, h4n]
          have e5 : noticeSub5 v ln = ln := by simp [noticeSub5, h5n]
          have E : noticeLine v ln = ln := by rw [noticeLine, e1, e2, e3, e4, e5]
          rw [E]
          exact E
    | some p =>
      obtain ⟨g1, g2p, g3p, t⟩ := p
      obtain ⟨s0, hr0, hs20⟩ := splitG1_sound hG1
      have e1 : noticeSub1 v ln = litAutd3 ++ (g1 ++ ' ' :: (v ++ litMIT ++ t)) := by
        simp [noticeSub1, ha, hG1]
      have hcS : (stripPre litSoemLink ln).isSome =
          (stripPre litSoemLink
            (litAutd3 ++ (g1 ++ ' ' :: (v ++ litMIT ++ t)))).isSome := by
        rw [hln, hr0, stripPre_soem_autd3, stripPre_soem_autd3]
        exact stripPre_space_congr g1 s0 (v ++ litMIT ++ t) husp_soem
      have hcT : (stripPre litTwincatLink ln).isSome =
          (stripPre litTwincatLink
            (litAutd3 ++ (g1 ++ ' ' :: (v ++ litMIT ++ t)))).isSome := by
        rw [hln, hr0, stripPre_twincat_autd3, stripPre_twincat_autd3]
        exact stripPre_space_congr g1 s0 (v ++ litMIT ++ t) husp_twincat
      cases hsoem : stripPre litSoemLink ln with
      | some w =>
        rw [hsoem] at hcS
        cases hsx : stripPre litSoemLink
            (litAutd3 ++ (g1 ++ ' ' :: (v ++ litMIT ++ t))) with
        | none =>
          rw [hsx] at hcS
          simp at hcS
        | some w2 =>
          have e2 : noticeSub2 v (litAutd3 ++ (g1 ++ ' ' :: (v ++ litMIT ++ t))) =
              litSoemLink ++ v := by
            have hsx2 : stripPre litSoemLink
                (litAutd3 ++ (g1 ++ ' ' :: (v ++ (litMIT ++ t)))) = some w2 := by
              simpa using hsx
            simp [noticeSub2, hsx2]
          have e3 : noticeSub3 v (litSoemLink ++ v) = litSoemLink ++ v := by
            have hn : stripPre litTwincatLink (litSoemLink ++ v) = none :=
              stripPre_mismatch v 11 (by decide) (by decide) (by decide)
            simp [noticeSub3, hn]
          have e4 : noticeSub4 v (litSoemLink ++ v) = litSoemLink ++ v := by
            have hn : stripPre litSOEMServer (litSoemLink ++ v) = none :=
              stripPre_mismatch v 0 (by decide) (by decide) (by decide)
            simp [noticeSub4, hn]
          have e5 : noticeSub5 v (litSoemLink ++ v) = litSoemLink ++ v := by
            have hn : stripPre litSimulatorSp (litSoemLink ++ v) = none :=
              stripPre_mismatch v 0 (by decide) (by decide) (by decide)
            simp [noticeSub5, hn]
          have E : noticeLine v ln = litSoemLink ++ v := by
            rw [noticeLine, e1, e2, e3, e4, e5]
          rw [E]
          exact noticeLine_soemOut v hsp
      | none =>
        rw [hsoem] at hcS
        have hsx : stripPre litSoemLink
            (litAutd3 ++ (g1 ++ ' ' :: (v ++ litMIT ++ t))) = none := by
          cases hy : stripPre litSoemLink
              (litAutd3 ++ (g1 ++ ' ' :: (v ++ litMIT ++ t))) with
          | none => rfl
          | some w2 =>
            rw [hy] at hcS
            simp at hcS
        have e2 : noticeSub2 v (litAutd3 ++ (g1 ++ ' ' :: (v ++ litMIT ++ t))) =
            litAutd3 ++ (g1 ++ ' ' :: (v ++ litMIT ++ t)) := by
          have hsx2 : stripPre litSoemLink
              (litAutd3 ++ (g1 ++ ' ' :: (v ++ (litMIT ++ t)))) = none := by
            simpa using hsx
          simp [noticeSub2, hsx2]
        cases htw : stripPre litTwincatLink ln with
        | some w =>
          rw [htw] at hcT
          cases htx : stripPre litTwincatLink
              (litAutd3 ++ (g1 ++ ' ' :: (v ++ litMIT ++ t))) with
          | none =>
            rw [htx] at hcT
            simp at hcT
          | some w2 =>
            have e3 : noticeSub3 v (litAutd3 ++ (g1 ++ ' ' :: (v ++ litMIT ++ t))) =
                litTwincatLink ++ v := by
              have htx2 : stripPre litTwincatLink
                  (litAutd3 ++ (g1 ++ ' ' :: (v ++ (litMIT ++ t)))) = some w2 := by
                simpa using htx
              simp [noticeSub3, htx2]
            have e4 : noticeSub4 v (litTwincatLink ++ v) = litTwincatLink ++ v := by
              have hn : stripPre litSOEMServer (litTwincatLink ++ v) = none :=
                stripPre_mismatch v 0 (by decide) (by decide) (by decide)
              simp [noticeSub4, hn]
            have e5 : noticeSub5 v (litTwincatLink ++ v) = litTwincatLink ++ v := by
              have hn : stripPre litSimulatorSp (litTwincatLink ++ v) = none :=
                stripPre_mismatch v 0 (by decide) (by decide) (by decide)
              simp [noticeSub5, hn]
            have E : noticeLine v ln = litTwincatLink ++ v := by
              rw [noticeLine, e1, e2, e3, e4, e5]
            rw [E]
            exact noticeLine_twincatOut v hsp
        | none =>
          rw [htw] at hcT
          have htx : stripPre litTwincatLink
              (litAutd3 ++ (g1 ++ ' ' :: (v ++ litMIT ++ t))) = none := by
            cases hy : stripPre litTwincatLink
                (litAutd3 ++ (g1 ++ ' ' :: (v ++ litMIT ++ t))) with
            | none => rfl
            | some w2 =>
              rw [hy] at hcT
              simp at hcT
          have e3 : noticeSub3 v (litAutd3 ++ (g1 ++ ' ' :: (v ++ litMIT ++ t))) =
              litAutd3 ++ (g1 ++ ' ' :: (v ++ litMIT ++ t)) := by
            have htx2 : stripPre litTwincatLink
                (litAutd3 ++ (g1 ++ ' ' :: (v ++ (litMIT ++ t)))) = none := by
              simpa using htx
            simp [noticeSub3, htx2]
          have e4 : noticeSub4 v (litAutd3 ++ (g1 ++ ' ' :: (v ++ litMIT ++ t))) =
              litAutd3 ++ (g1 ++ ' ' :: (v ++ litMIT ++ t)) := by
            have hn : stripPre litSOEMServer
                (litAutd3 ++ (g1 ++ ' ' :: (v ++ (litMIT ++ t)))) = none :=
              stripPre_mismatch _ 0 (by decide) (by decide) (by decide)
            simp [noticeSub4, hn]
          have e5 : noticeSub5 v (litAutd3 ++ (g1 ++ ' ' :: (v ++ litMIT ++ t))) =
              litAutd3 ++ (g1 ++ ' ' :: (v ++ litMIT ++ t)) := by
            have hn : stripPre litSimulatorSp
                (litAutd3 ++ (g1 ++ ' ' :: (v ++ (litMIT ++ t)))) = none :=
              stripPre_mismatch _ 0 (by decide) (by decide) (by decide)
            simp [noticeSub5, hn]
          have E : noticeLine v ln = litAutd3 ++ (g1 ++ ' ' :: (v ++ litMIT ++ t)) := by
            rw [noticeLine, e1, e2, e3, e4, e5]
          rw [E]
          exact noticeLine_autd3Out hsp hG1 hsx htx

theorem noticeTxt_idem {v : Line} (hsp : ' ' ∉ v) (content : List Line) :
    noticeTxt v (noticeTxt v content) = noticeTxt v content := by
  unfold noticeTxt
  rw [List.map_map]
  exact List.map_congr_left fun ln _ => noticeLine_idem hsp

set_option maxHeartbeats 1000000 in
theorem upverPhase_idem {v : Line} (hq : '"' ∉ v) (hsp : ' ' ∉ v) (fs : FileTree) :
    upverPhase v (upverPhase v fs) = upverPhase v fs := by
  simp only [upverPhase, editTree]
  simp only [List.map_map]
  refine List.map_congr_left ?_
  intro e _
  obtain ⟨p, c⟩ := e
  by_cases h1 : isCargoTomlPath p
  · have h2 : isNoticePath p = false := by
      unfold isCargoTomlPath at h1
      simp at h1
      unfold isNoticePath
      simp [h1.2]
    have h3 : p ≠ pkgJsonPath := by
      intro he
      rw [he] at h1
      exact absurd h1 (by decide)
    have h4 : p ≠ tauriConfPath := by
      intro he
      rw [he] at h1
      exact absurd h1 (by decide)
    simp [h1, h2, h3, h4, cargoToml_idem hq hsp]
  · by_cases h2 : isNoticePath p
    · have h3 : p ≠ pkgJsonPath := by
        intro he
        rw [he] at h2
        exact absurd h2 (by decide)
      have h4 : p ≠ tauriConfPath := by
        intro he
        rw [he] at h2
        exact absurd h2 (by decide)
      simp [h1, h2, h3, h4, noticeTxt_idem hsp]
    · by_cases h3 : p = pkgJsonPath
      · subst h3
        have h4 : pkgJsonPath ≠ tauriConfPath := by decide
        simp [h1, h2, h4, packageJson_idem]
      · by_cases h4 : p = tauriConfPath
        · subst h4
          simp [h1, h2, h3, tauriConf_idem hq]
        · simp [h1, h2, h3, h4]

/-- Claim C8 (amended): for every version string containing no double quote,
space, backslash or newline, the text-substitution phase of `util upver` is
idempotent: applying the regular-expression substitutions a second time with
the same version string leaves the tree produced by the first application
unchanged. -/
theorem upver_subst_idempotent (v : Line) (fs : FileTree) (hpv : plainVersion v) :
    upverPhase v (upverPhase v fs) = upverPhase v fs :=
  upverPhase_idem hpv.1 hpv.2.1 fs

theorem upver_subst_idempotent_witness :
    plainVersion "1.2.3".toList ∧
      upverPhase "1.2.3".toList
          (upverPhase "1.2.3".toList
            [(["a", "Cargo.toml"], ["version = \"0\"".toList])]) =
        upverPhase "1.2.3".toList
          [(["a", "Cargo.toml"], ["version = \"0\"".toList])] :=
  ⟨by decide, upver_subst_idempotent "1.2.3".toList _ (by decide)⟩

/-- Claim C8 counterexample: the claim quantifies over every version string,
but with the version `a"b` the first application turns `version = "0"` into
`version = "a"b"` and the second application changes that line again to
`version = "a"b"b"`, so the substitution phase is not idempotent for
arbitrary version strings. -/
theorem upver_subst_not_idempotent :
    ¬∀ (v : Line) (fs : FileTree),
      upverPhase v (upverPhase v fs) = upverPhase v fs := by
  intro hall
  have h := hall ('a' :: '"' :: ['b'])
    [(["a", "Cargo.toml"], ["version = \"0\"".toList])]
  exact absurd h (by decide)

end AUTD3Server
